import Mathlib

/-!
Verification of the TSCH MAC core (schedule manager, per-neighbor transmit
queue, slot-operation epilogue, association) against its specification.

The definitions below are a shallow embedding of the C sources
`core/net/mac/tsch/tsch.c`, `tsch-queue.c` and `tsch-schedule.c`.
Machine integers are modelled as `Nat`/`Int` with explicit `% 2^w` where
overflow matters; fallible C functions returning `NULL`/error codes are
modelled with `Option`/`Bool` results; global mutable state is passed
explicitly (the `tsch_locked` flag, the neighbor list, pools, the
sequence-number counter).
-/

namespace Tsch

/-- An 8-byte 802.15.4 link-layer address (`linkaddr_t`), modelled as the
list of its bytes. -/
abbrev LinkAddr := List Nat

/-- The 802.15.4 broadcast MAC address (all `0xff`), `tsch.c`. -/
def tsch_broadcast_address : LinkAddr := List.replicate 8 255

/-- Address used for the EB virtual neighbor queue (all zero), `tsch.c`. -/
def tsch_eb_address : LinkAddr := List.replicate 8 0

/-- Contiki's null link address (all zero). -/
def linkaddr_null : LinkAddr := List.replicate 8 0

/-- Modelled from the spec: `LINK_OPTION_TX` bit of the link-option bitset
(`tsch-schedule.h` is not under `src/`; the spec describes
`link_options: bitset{TX, RX, SHARED, TIME_KEEPING}`; the concrete bit
positions are immaterial to the claims). -/
def LINK_OPTION_TX : Nat := 1

/-- Modelled from the spec: `LINK_OPTION_RX` bit of the link-option bitset. -/
def LINK_OPTION_RX : Nat := 2

/-- Modelled from the spec: `LINK_OPTION_SHARED` bit of the link-option bitset. -/
def LINK_OPTION_SHARED : Nat := 4

/-- Modelled from the spec: `LINK_OPTION_TIME_KEEPING` bit of the bitset. -/
def LINK_OPTION_TIME_KEEPING : Nat := 8

/-- A schedule link (`struct tsch_link`): one cell of a slotframe. -/
structure TschLink where
  handle : Nat
  link_options : Nat
  link_type : Nat
  slotframe_handle : Nat
  timeslot : Nat
  channel_offset : Nat
  addr : LinkAddr
deriving DecidableEq, Repr

/-- A slotframe (`struct tsch_slotframe`): a recurring schedule period with
its list of links. -/
structure TschSlotframe where
  handle : Nat
  size : Nat
  links_list : List TschLink
deriving DecidableEq, Repr

/-- MAC transmission status codes surfaced through the completion callback
(`MAC_TX_*`, `mac.h` is not under `src/`; the spec gives the taxonomy in
its error-handling section). -/
inductive MacTxStatus where
  | deferred
  | ok
  | noack
  | collision
  | err
  | err_fatal
deriving DecidableEq, Repr

/-- An outstanding outgoing frame (`struct tsch_packet`). The queuebuf
payload is abstracted to a `Nat`. -/
structure TschPacket where
  payload : Nat
  seqno : Nat
  ret : MacTxStatus
  transmissions : Nat
deriving DecidableEq, Repr

/-- A TSCH neighbor (`struct tsch_neighbor`). The per-neighbor TX ring
buffer is modelled from the spec as a FIFO list (`ringbufindex.c` is not
under `src/`; the spec describes it as a FIFO ring of configured capacity). -/
structure TschNeighbor where
  addr : LinkAddr
  is_broadcast : Bool
  is_time_source : Bool
  backoff_exponent : Nat
  backoff_window : Nat
  tx_links_count : Nat
  dedicated_tx_links_count : Nat
  tx_queue : List TschPacket
deriving DecidableEq, Repr

/-! ### Pseudo-random generator, `tsch-queue.c` -/

/-- One step of the dedicated linear congruential generator:
`tsch_random_seed = tsch_random_seed * 1103515245 + 12345` on a `uint32_t`
seed (`tsch-queue.c`, `tsch_random_byte`). -/
def tsch_random_step (seed : Nat) : Nat :=
  (seed * 1103515245 + 12345) % 2 ^ 32

/-- The value returned by `tsch_random_byte(window)` once the seed has been
stepped: `((uint32_t)(seed / 65536) % 32768) & window`, where the `window`
argument is a `uint8_t` (the caller's mask is truncated mod 256 at the
call boundary). -/
def tsch_random_byte_val (seed window : Nat) : Nat :=
  ((seed / 65536) % 32768) &&& (window % 256)

/-! ### Per-neighbor queue, `tsch-queue.c` -/

/-- The neighbor-list scan of `tsch_queue_get_nbr`: return the first
neighbor whose address equals `addr` (`linkaddr_cmp`). -/
def tsch_queue_get_nbr_loop (addr : LinkAddr) : List TschNeighbor → Option TschNeighbor
  | [] => none
  | n :: rest =>
    if n.addr = addr then some n else tsch_queue_get_nbr_loop addr rest

/-- `tsch_queue_get_nbr`: read-only scan of the neighbor list; returns
`NULL` for every address while the global TSCH lock is held. -/
def tsch_queue_get_nbr (locked : Bool) (nbrs : List TschNeighbor) (addr : LinkAddr) :
    Option TschNeighbor :=
  if locked then none else tsch_queue_get_nbr_loop addr nbrs

/-- The neighbor-list scan of `tsch_queue_get_time_source`: first neighbor
flagged `is_time_source`. -/
def tsch_queue_get_time_source_loop : List TschNeighbor → Option TschNeighbor
  | [] => none
  | n :: rest =>
    if n.is_time_source then some n else tsch_queue_get_time_source_loop rest

/-- `tsch_queue_get_time_source`: returns `NULL` while the lock is held. -/
def tsch_queue_get_time_source (locked : Bool) (nbrs : List TschNeighbor) :
    Option TschNeighbor :=
  if locked then none else tsch_queue_get_time_source_loop nbrs

/-- A freshly allocated neighbor entry as initialized by
`tsch_queue_add_nbr`: zeroed, ring initialized empty, address copied,
`is_broadcast` set iff the address is the EB or broadcast well-known
address, then `tsch_queue_backoff_reset` (window 0, exponent
`MAC_MIN_BE`). -/
def tsch_new_neighbor (MAC_MIN_BE : Nat) (addr : LinkAddr) : TschNeighbor :=
  { addr := addr
    is_broadcast := addr = tsch_eb_address ∨ addr = tsch_broadcast_address
    is_time_source := false
    backoff_exponent := MAC_MIN_BE
    backoff_window := 0
    tx_links_count := 0
    dedicated_tx_links_count := 0
    tx_queue := [] }

/-- `tsch_queue_add_nbr`: look the address up first and return the existing
entry; otherwise, if the lock is acquirable, allocate from the neighbor
pool (capacity `nbrCap`, `TSCH_QUEUE_MAX_NEIGHBOR_QUEUES`), initialize and
append to the list (`list_add` appends at the tail). Returns the neighbor
(or `none` on failure) together with the updated list. -/
def tsch_queue_add_nbr (locked : Bool) (MAC_MIN_BE nbrCap : Nat)
    (nbrs : List TschNeighbor) (addr : LinkAddr) :
    Option TschNeighbor × List TschNeighbor :=
  match tsch_queue_get_nbr locked nbrs addr with
  | some n => (some n, nbrs)
  | none =>
    if locked then (none, nbrs)
    else if nbrs.length < nbrCap then
      (some (tsch_new_neighbor MAC_MIN_BE addr),
       nbrs ++ [tsch_new_neighbor MAC_MIN_BE addr])
    else (none, nbrs)

/-- Update, in place, the first neighbor of the list whose address is
`addr` (the C code mutates the single object found by the first-match
scan). -/
def tsch_nbr_list_update (addr : LinkAddr) (f : TschNeighbor → TschNeighbor) :
    List TschNeighbor → List TschNeighbor
  | [] => []
  | m :: rest =>
    if m.addr = addr then f m :: rest
    else m :: tsch_nbr_list_update addr f rest

/-- `tsch_queue_update_time_source`: under a free lock and on a
non-coordinator, flip `is_time_source` on the old and the new time-source
entries when they differ (the C compares the two neighbor pointers; in
reachable states addresses identify entries uniquely, so the comparison is
modelled on addresses). Returns whether a change occurred. -/
def tsch_queue_update_time_source (locked coordinator : Bool)
    (MAC_MIN_BE nbrCap : Nat) (nbrs : List TschNeighbor)
    (new_addr : Option LinkAddr) : Bool × List TschNeighbor :=
  if locked then (false, nbrs)
  else if coordinator then (false, nbrs)
  else
    match tsch_queue_get_time_source false nbrs,
        (match new_addr with
         | some a => tsch_queue_add_nbr false MAC_MIN_BE nbrCap nbrs a
         | none => (none, nbrs)) with
    | old, (newSrc, nbrs1) =>
      if newSrc.map TschNeighbor.addr = old.map TschNeighbor.addr then
        (false, nbrs1)
      else
        let nbrs2 :=
          match newSrc with
          | some nw =>
            tsch_nbr_list_update nw.addr (fun m => { m with is_time_source := true }) nbrs1
          | none => nbrs1
        let nbrs3 :=
          match old with
          | some od =>
            tsch_nbr_list_update od.addr (fun m => { m with is_time_source := false }) nbrs2
          | none => nbrs2
        (true, nbrs3)

/-- Mutable queue-module state threaded through the operations: the
neighbor list plus the free counts of the fixed packet pool
(`packet_memb`, `QUEUEBUF_NUM` entries) and of the queuebuf pool. -/
structure TschQueueState where
  neighbors : List TschNeighbor
  packet_memb_free : Nat
  queuebuf_free : Nat
deriving DecidableEq, Repr

/-- `tsch_queue_add_packet`: with the lock free, find or create the
neighbor, reserve a ring slot with a non-destructive peek-put (the ring,
modelled from the spec, holds up to `queueCap =
TSCH_QUEUE_NUM_PER_NEIGHBOR` packets), allocate a packet from the pool,
copy the packetbuf into a queuebuf, and publish at the tail of the FIFO
with `ret = MAC_TX_DEFERRED` and `transmissions = 0`. Any step failure
releases partial state and returns 0. -/
def tsch_queue_add_packet (locked : Bool) (MAC_MIN_BE nbrCap queueCap : Nat)
    (st : TschQueueState) (addr : LinkAddr) (payload seqno : Nat) :
    Bool × TschQueueState :=
  if locked then (false, st)
  else
    match tsch_queue_add_nbr false MAC_MIN_BE nbrCap st.neighbors addr with
    | (none, nbrs1) => (false, { st with neighbors := nbrs1 })
    | (some n, nbrs1) =>
      if n.tx_queue.length < queueCap then
        if 0 < st.packet_memb_free then
          if 0 < st.queuebuf_free then
            (true,
             { neighbors :=
                 tsch_nbr_list_update n.addr
                   (fun m =>
                     { m with
                       tx_queue :=
                         m.tx_queue ++
                           [{ payload := payload, seqno := seqno,
                              ret := MacTxStatus.deferred, transmissions := 0 }] })
                   nbrs1
               packet_memb_free := st.packet_memb_free - 1
               queuebuf_free := st.queuebuf_free - 1 })
          else (false, { st with neighbors := nbrs1 })
        else (false, { st with neighbors := nbrs1 })
      else (false, { st with neighbors := nbrs1 })

/-- `k` consecutive `tsch_queue_add_packet` calls for the same address,
stopping at the first failure. -/
def tsch_queue_add_packet_iter (MAC_MIN_BE nbrCap queueCap : Nat)
    (addr : LinkAddr) (payload seqno : Nat) :
    Nat → TschQueueState → Bool × TschQueueState
  | 0, st => (true, st)
  | k + 1, st =>
    match tsch_queue_add_packet_iter MAC_MIN_BE nbrCap queueCap addr payload
        seqno k st with
    | (true, st1) =>
      tsch_queue_add_packet false MAC_MIN_BE nbrCap queueCap st1 addr payload seqno
    | (false, st1) => (false, st1)

/-- `tsch_queue_packet_count`: returns the number of packets queued for
`addr`, or `-1` while the lock is held or when the neighbor cannot be
found nor created (the C function calls `tsch_queue_add_nbr`, so the list
may grow; the updated list is returned alongside). -/
def tsch_queue_packet_count (locked : Bool) (MAC_MIN_BE nbrCap : Nat)
    (nbrs : List TschNeighbor) (addr : LinkAddr) : Int × List TschNeighbor :=
  if locked then (-1, nbrs)
  else
    match tsch_queue_add_nbr false MAC_MIN_BE nbrCap nbrs addr with
    | (some n, nbrs1) => ((n.tx_queue.length : Int), nbrs1)
    | (none, nbrs1) => (-1, nbrs1)

/-- `tsch_queue_is_empty`: `!tsch_is_locked() && n != NULL &&
ringbufindex_empty(&n->tx_ringbuf)` — false whenever the lock is held,
even on an empty ring. -/
def tsch_queue_is_empty (locked : Bool) (n : Option TschNeighbor) : Bool :=
  if locked then false
  else
    match n with
    | none => false
    | some m => m.tx_queue.isEmpty

/-- `tsch_queue_backoff_expired`: may the neighbor transmit over a shared
link? True iff `backoff_window == 0`. -/
def tsch_queue_backoff_expired (n : TschNeighbor) : Bool :=
  n.backoff_window = 0

/-- `tsch_queue_get_packet_for_nbr`: peek the head of the neighbor's queue
without removing it; on a shared link the head is masked out unless the
backoff has expired. -/
def tsch_queue_get_packet_for_nbr (locked : Bool) (n : Option TschNeighbor)
    (is_shared_link : Bool) : Option TschPacket :=
  if locked then none
  else
    match n with
    | none => none
    | some m =>
      match m.tx_queue.head? with
      | none => none
      | some p =>
        if is_shared_link ∧ ¬tsch_queue_backoff_expired m then none else some p

/-- The neighbor-list scan of `tsch_queue_get_unicast_packet_for_any`:
only non-broadcast neighbors with `tx_links_count == 0` are looked up; the
first head packet that passes the shared-link mask is returned together
with its owning neighbor (the out-parameter `*n`). -/
def tsch_queue_get_unicast_packet_for_any_loop (is_shared_link : Bool) :
    List TschNeighbor → Option (TschPacket × TschNeighbor)
  | [] => none
  | n :: rest =>
    if ¬n.is_broadcast ∧ n.tx_links_count = 0 then
      match tsch_queue_get_packet_for_nbr false (some n) is_shared_link with
      | some p => some (p, n)
      | none => tsch_queue_get_unicast_packet_for_any_loop is_shared_link rest
    else tsch_queue_get_unicast_packet_for_any_loop is_shared_link rest

/-- `tsch_queue_get_unicast_packet_for_any`, `tsch-queue.c`. -/
def tsch_queue_get_unicast_packet_for_any (locked : Bool)
    (nbrs : List TschNeighbor) (is_shared_link : Bool) :
    Option (TschPacket × TschNeighbor) :=
  if locked then none
  else tsch_queue_get_unicast_packet_for_any_loop is_shared_link nbrs

/-- `tsch_queue_backoff_reset`: window to 0, exponent to `MAC_MIN_BE`. -/
def tsch_queue_backoff_reset (MAC_MIN_BE : Nat) (n : TschNeighbor) : TschNeighbor :=
  { n with backoff_window := 0, backoff_exponent := MAC_MIN_BE }

/-- `tsch_queue_backoff_inc`: exponent to `min(exponent + 1, MAC_MAX_BE)`;
window to `tsch_random_byte((1 << exponent) - 1) + 1`. The mask argument
and the stored window are `uint8_t`, hence the `% 256` truncations.
Returns the updated neighbor and the advanced PRNG seed. -/
def tsch_queue_backoff_inc (MAC_MAX_BE seed : Nat) (n : TschNeighbor) :
    TschNeighbor × Nat :=
  let be := min (n.backoff_exponent + 1) MAC_MAX_BE
  let seed1 := tsch_random_step seed
  let w := tsch_random_byte_val seed1 ((2 ^ be - 1) % 256)
  ({ n with backoff_exponent := be, backoff_window := (w + 1) % 256 }, seed1)

/-- `tsch_queue_update_all_backoff_windows`: with the lock free, decrement
the window of every neighbor in backoff state (`backoff_window != 0`) that
may transmit at a slot directed to `dest_addr`: either `dest_addr` is
broadcast and the neighbor has no TX link, or the neighbor has TX links
and `dest_addr` is its own address. -/
def tsch_queue_update_all_backoff_windows (locked : Bool) (dest_addr : LinkAddr)
    (nbrs : List TschNeighbor) : List TschNeighbor :=
  if locked then nbrs
  else
    nbrs.map (fun n =>
      if n.backoff_window ≠ 0 ∧
          ((n.tx_links_count = 0 ∧ dest_addr = tsch_broadcast_address) ∨
           (0 < n.tx_links_count ∧ dest_addr = n.addr)) then
        { n with backoff_window := n.backoff_window - 1 }
      else n)

/-! ### Schedule manager, `tsch-schedule.c` -/

/-- The link-list scan of `tsch_schedule_get_link_from_timeslot`: first
link of the slotframe with the given timeslot (the code assumes at most
one link per timeslot). -/
def tsch_schedule_get_link_from_timeslot_loop (timeslot : Nat) :
    List TschLink → Option TschLink
  | [] => none
  | l :: rest =>
    if l.timeslot = timeslot then some l
    else tsch_schedule_get_link_from_timeslot_loop timeslot rest

/-- `tsch_schedule_get_link_from_timeslot`: returns `NULL` while the lock
is held, else the link of `sf` installed at `timeslot`. -/
def tsch_schedule_get_link_from_timeslot (locked : Bool) (sf : TschSlotframe)
    (timeslot : Nat) : Option TschLink :=
  if locked then none
  else tsch_schedule_get_link_from_timeslot_loop timeslot sf.links_list

/-- The tie-break of `tsch_schedule_get_link_from_asn` under
`TSCH_SCHEDULE_PRIORITIZE_TX` (the default): when the current best and the
new match have equal TX bits, keep the one with the smaller
`slotframe_handle`; otherwise pick the one carrying the TX option. -/
def select_best_link (curr_best l : TschLink) : TschLink :=
  if curr_best.link_options &&& LINK_OPTION_TX = l.link_options &&& LINK_OPTION_TX then
    if l.slotframe_handle < curr_best.slotframe_handle then l else curr_best
  else
    if l.link_options &&& LINK_OPTION_TX ≠ 0 then l else curr_best

/-- The slotframe loop of `tsch_schedule_get_link_from_asn`: for each
slotframe, look up the link at `asn mod sf.size` and fold it into the
current best with the tie-break above. -/
def tsch_schedule_get_link_from_asn_loop (locked : Bool) (asn : Nat) :
    List TschSlotframe → Option TschLink → Option TschLink
  | [], curr_best => curr_best
  | sf :: rest, curr_best =>
    match tsch_schedule_get_link_from_timeslot locked sf (asn % sf.size), curr_best with
    | none, curr_best =>
      tsch_schedule_get_link_from_asn_loop locked asn rest curr_best
    | some l, none =>
      tsch_schedule_get_link_from_asn_loop locked asn rest (some l)
    | some l, some cb =>
      tsch_schedule_get_link_from_asn_loop locked asn rest (some (select_best_link cb l))

/-- `tsch_schedule_get_link_from_asn`: the link to be used at a given ASN.
The ASN modulo (`ASN_MOD`, `tsch-private.h` is not under `src/`) is
modelled from the spec as plain `asn % size`. -/
def tsch_schedule_get_link_from_asn (locked : Bool) (sfs : List TschSlotframe)
    (asn : Nat) : Option TschLink :=
  tsch_schedule_get_link_from_asn_loop locked asn sfs none

/-- `time_to_timeslot` as computed inside
`tsch_schedule_get_next_active_link`:
`l->timeslot > timeslot ? l->timeslot - timeslot : sf->size.val + l->timeslot - timeslot`. -/
def time_to_timeslot (size timeslot l_timeslot : Nat) : Nat :=
  if l_timeslot > timeslot then l_timeslot - timeslot
  else size + l_timeslot - timeslot

/-- One step of the inner link loop of `tsch_schedule_get_next_active_link`:
keep the earliest occurrence seen so far (`curr_earliest == 0` is the
initial sentinel). -/
def next_active_step (size timeslot : Nat) (acc : Nat × Option TschLink)
    (l : TschLink) : Nat × Option TschLink :=
  if acc.1 = 0 ∨ time_to_timeslot size timeslot l.timeslot < acc.1 then
    (time_to_timeslot size timeslot l.timeslot, some l)
  else acc

/-- The slotframe loop of `tsch_schedule_get_next_active_link`: fold the
inner link loop over every slotframe. -/
def tsch_schedule_get_next_active_link_loop (asn : Nat) :
    List TschSlotframe → Nat × Option TschLink → Nat × Option TschLink
  | [], acc => acc
  | sf :: rest, acc =>
    tsch_schedule_get_next_active_link_loop asn rest
      (sf.links_list.foldl (next_active_step sf.size (asn % sf.size)) acc)

/-- `tsch_schedule_get_next_active_link`: the next active link after a
given ASN and (through `*time_offset`, modelled as the second component,
`none` when left unwritten) the number of slots until it occurs. Returns
`NULL` and leaves `*time_offset` unwritten while the lock is held. -/
def tsch_schedule_get_next_active_link (locked : Bool) (sfs : List TschSlotframe)
    (asn : Nat) : Option TschLink × Option Nat :=
  if locked then (none, none)
  else
    match tsch_schedule_get_next_active_link_loop asn sfs (0, none) with
    | (ce, cel) => (cel, some ce)

/-- The slot distance from the ASN to the next occurrence of link `l` of
slotframe `sf`, exactly as computed inside
`tsch_schedule_get_next_active_link`. -/
def link_slot_distance (asn : Nat) (sf : TschSlotframe) (l : TschLink) : Nat :=
  time_to_timeslot sf.size (asn % sf.size) l.timeslot

/-- Does a link carry the TX option? -/
def link_has_tx (l : TschLink) : Prop :=
  l.link_options &&& LINK_OPTION_TX ≠ 0

instance (l : TschLink) : Decidable (link_has_tx l) := by
  unfold link_has_tx; infer_instance

/-- `a` has strictly lower scheduling priority than `b`: a link with TX
beats a link without, and among links of equal TX status the smaller
`slotframe_handle` wins. -/
def link_prio_lt (a b : TschLink) : Prop :=
  (¬link_has_tx a ∧ link_has_tx b) ∨
    ((link_has_tx a ↔ link_has_tx b) ∧ b.slotframe_handle < a.slotframe_handle)

instance (a b : TschLink) : Decidable (link_prio_lt a b) := by
  unfold link_prio_lt; infer_instance

/-- `l` is a candidate for the ASN: it is installed in some slotframe of
the schedule at timeslot `asn mod size`. -/
def is_link_candidate (sfs : List TschSlotframe) (asn : Nat) (l : TschLink) : Prop :=
  ∃ sf ∈ sfs, l ∈ sf.links_list ∧ l.timeslot = asn % sf.size

instance (sfs : List TschSlotframe) (asn : Nat) (l : TschLink) :
    Decidable (is_link_candidate sfs asn l) := by
  unfold is_link_candidate; exact List.decidableBEx _ _

/-! ### Slot engine and association, `tsch.c` -/

/-- Modelled from the spec: `ASN_DIFF` of `tsch-private.h` (not under
`src/`), the signed difference of two ASN values yielding a slot count. -/
def ASN_DIFF (a b : Nat) : Int := (a : Int) - (b : Int)

/-- `TRUNCATE_SYNC_IE_BOUND`: `(int)TsLongGT / 2` (`tsch.c`). -/
def TRUNCATE_SYNC_IE_BOUND (TsLongGT : Int) : Int := TsLongGT / 2

/-- The drift-truncation branch of `tsch_tx_link` under `TRUNCATE_SYNC_IE`
(the default): clamp the received drift to `[-bound, bound]`. -/
def tsch_truncate_drift (bound received_drift : Int) : Int :=
  if received_drift > bound then bound
  else if received_drift < -bound then -bound
  else received_drift

/-- The sync-IE handling of `tsch_tx_link` after a valid ACK
(`ret & TSCH_ACK_OK`): if the destination is the time source and the ACK
carries a sync IE, store the truncated drift as `drift_correction`;
otherwise leave it unset (`none`). -/
def tsch_tx_ack_drift_correction (is_time_source has_sync_ie : Bool)
    (TsLongGT received_drift : Int) : Option Int :=
  if is_time_source ∧ has_sync_ie then
    some (tsch_truncate_drift (TRUNCATE_SYNC_IE_BOUND TsLongGT) received_drift)
  else none

/-- The end-of-slot resynchronization check of `tsch_link_operation`:
if the node is not coordinator and
`ASN_DIFF(current_asn, last_sync_asn)` exceeds the desynchronization
threshold in slots, clear `associated` and poke the main task instead of
scheduling the next slot. Returns the new `associated` flag and whether
the next-slot scheduling loop is entered. -/
def tsch_slot_operation_epilogue (coordinator : Bool)
    (current_asn last_sync_asn : Nat) (desync_threshold_slots : Int)
    (associated : Bool) : Bool × Bool :=
  if ¬coordinator ∧ ASN_DIFF current_asn last_sync_asn > desync_threshold_slots then
    (false, false)
  else (associated, true)

/-- The sequence-number update shared by `send_packet` and
`tsch_send_eb_process`: `if(++tsch_packet_seqno == 0) tsch_packet_seqno++;`
on a `uint8_t` counter. -/
def tsch_next_packet_seqno (s : Nat) : Nat :=
  if (s + 1) % 256 = 0 then ((s + 1) % 256) + 1 else (s + 1) % 256

/-- `send_packet` (`tsch.c`): advance and stamp the sequence number,
reroute the null (broadcast) address to the broadcast queue, query the
queue count (which may create the neighbor), run the framer, and enqueue.
On framer or enqueue failure the completion callback is invoked at once
with `MAC_TX_ERR` and `transmissions = 1`. Result: the callback invocation
(`none` when the send stays `MAC_TX_DEFERRED`), the new state, the new
sequence counter, and the seqno stamped into the outgoing frame. -/
def send_packet (locked : Bool) (MAC_MIN_BE nbrCap queueCap : Nat)
    (st : TschQueueState) (seqno : Nat) (recv_addr : LinkAddr) (payload : Nat)
    (framer_ok : Bool) :
    Option (MacTxStatus × Nat) × TschQueueState × Nat × Nat :=
  let seqno1 := tsch_next_packet_seqno seqno
  let addr := if recv_addr = linkaddr_null then tsch_broadcast_address else recv_addr
  match tsch_queue_packet_count locked MAC_MIN_BE nbrCap st.neighbors addr with
  | (_, nbrs1) =>
    let st1 : TschQueueState := { st with neighbors := nbrs1 }
    if ¬framer_ok then (some (MacTxStatus.err, 1), st1, seqno1, seqno1)
    else
      match tsch_queue_add_packet locked MAC_MIN_BE nbrCap queueCap st1 addr payload seqno1 with
      | (true, st2) => (none, st2, seqno1, seqno1)
      | (false, st2) => (some (MacTxStatus.err, 1), st2, seqno1, seqno1)

/-- One round of the EB-generation loop of `tsch_send_eb_process` while
associated: if the EB virtual queue is empty, advance the sequence
counter (skipping 0), stamp it into a fresh EB and enqueue it on the EB
queue. Returns the new state, the new sequence counter, and the seqno
stamped into the generated EB (`none` when no EB was generated). -/
def tsch_send_eb_step (locked : Bool) (MAC_MIN_BE nbrCap queueCap : Nat)
    (st : TschQueueState) (seqno : Nat) (eb_payload : Nat) (eb_len_ok : Bool) :
    TschQueueState × Nat × Option Nat :=
  match tsch_queue_packet_count locked MAC_MIN_BE nbrCap st.neighbors tsch_eb_address with
  | (cnt, nbrs1) =>
    let st1 : TschQueueState := { st with neighbors := nbrs1 }
    if cnt = 0 then
      let seqno1 := tsch_next_packet_seqno seqno
      if eb_len_ok then
        match tsch_queue_add_packet locked MAC_MIN_BE nbrCap queueCap st1
            tsch_eb_address eb_payload seqno1 with
        | (_, st2) => (st2, seqno1, some seqno1)
      else (st1, seqno1, some seqno1)
    else (st1, seqno, none)

/-- The global TSCH state touched by the association protocol
(`tsch_associate`). -/
structure TschState where
  neighbors : List TschNeighbor
  current_asn : Nat
  last_sync_asn : Nat
  current_link_start : Int
  tsch_join_priority : Nat
  associated : Bool
  joining_network_fired : Bool
deriving DecidableEq, Repr

/-- The EB-acceptance branch of `tsch_associate` on a scanning
non-coordinator node, after `tsch_parse_eb` succeeded (writing the EB ASN
into `current_asn` and the received join priority into
`tsch_join_priority`): if the received priority is below
`TSCH_MAX_JOIN_PRIORITY` and the neighbor allocation succeeds, mark the
sender as time source, record the sync ASN, derive the link start from the
packet RX timestamp, bump the join priority, fire the joining-network
hook, and set `associated`. -/
def tsch_associate_on_eb (MAC_MIN_BE nbrCap TSCH_MAX_JOIN_PRIORITY : Nat)
    (TsTxOffset : Int) (st : TschState) (source_address : LinkAddr)
    (eb_asn eb_join_priority : Nat) (rx_timestamp : Int) : TschState :=
  let st1 : TschState :=
    { st with current_asn := eb_asn, tsch_join_priority := eb_join_priority }
  if eb_join_priority < TSCH_MAX_JOIN_PRIORITY then
    match tsch_queue_add_nbr false MAC_MIN_BE nbrCap st1.neighbors source_address with
    | (none, nbrs1) => { st1 with neighbors := nbrs1 }
    | (some _, nbrs1) =>
      match tsch_queue_update_time_source false false MAC_MIN_BE nbrCap nbrs1
          (some source_address) with
      | (_, nbrs2) =>
        { st1 with
          neighbors := nbrs2
          last_sync_asn := st1.current_asn
          current_link_start := rx_timestamp - TsTxOffset
          tsch_join_priority := st1.tsch_join_priority + 1
          associated := true
          joining_network_fired := true }
  else st1

/-! ### Sample data used by witness theorems -/

/-- A sample unicast link-layer address. -/
def sampleAddr : LinkAddr := [0, 18, 116, 1, 0, 1, 1, 1]

/-- A second sample unicast link-layer address. -/
def sampleAddr2 : LinkAddr := [0, 18, 116, 2, 0, 2, 2, 2]

/-- A sample queued packet. -/
def samplePacket : TschPacket :=
  { payload := 7, seqno := 1, ret := MacTxStatus.deferred, transmissions := 0 }

/-- A sample neighbor with an empty queue. -/
def sampleNbr : TschNeighbor :=
  { addr := sampleAddr
    is_broadcast := false
    is_time_source := false
    backoff_exponent := 1
    backoff_window := 0
    tx_links_count := 0
    dedicated_tx_links_count := 0
    tx_queue := [] }

/-- A sample queue-module state holding `sampleNbr` only. -/
def sampleQueueState : TschQueueState :=
  { neighbors := [sampleNbr], packet_memb_free := 8, queuebuf_free := 8 }

/-- Sample links mirroring `tsch_schedule_test` in `tsch-schedule.c`:
an advertising TX|RX|SHARED|TIME_KEEPING broadcast link at timeslot 0 of
slotframe 20. -/
def sampleLinkA : TschLink :=
  { handle := 0, link_options := 15, link_type := 1, slotframe_handle := 20
    timeslot := 0, channel_offset := 1, addr := tsch_broadcast_address }

/-- Sample RX link at timeslot 1 of slotframe 20. -/
def sampleLinkB : TschLink :=
  { handle := 1, link_options := 2, link_type := 0, slotframe_handle := 20
    timeslot := 1, channel_offset := 1, addr := sampleAddr }

/-- Sample RX link at timeslot 4 of slotframe 20. -/
def sampleLinkC : TschLink :=
  { handle := 2, link_options := 2, link_type := 0, slotframe_handle := 20
    timeslot := 4, channel_offset := 10, addr := sampleAddr }

/-- Sample TX link at timeslot 0 of slotframe 21. -/
def sampleLinkD : TschLink :=
  { handle := 3, link_options := 1, link_type := 0, slotframe_handle := 21
    timeslot := 0, channel_offset := 2, addr := sampleAddr2 }

/-- Sample slotframe with handle 20 and size 5. -/
def sampleSf1 : TschSlotframe :=
  { handle := 20, size := 5, links_list := [sampleLinkA, sampleLinkB, sampleLinkC] }

/-- Sample slotframe with handle 21 and size 3. -/
def sampleSf2 : TschSlotframe :=
  { handle := 21, size := 3, links_list := [sampleLinkD] }

/-- A neighbor reached over a shared TX link only: one TX link, no
dedicated TX link, a pending packet, and an expired backoff. -/
def sharedOnlyNbr : TschNeighbor :=
  { addr := sampleAddr2
    is_broadcast := false
    is_time_source := false
    backoff_exponent := 1
    backoff_window := 0
    tx_links_count := 1
    dedicated_tx_links_count := 0
    tx_queue := [samplePacket] }

/-- A sample global state of a scanning non-coordinator node. -/
def sampleScanState : TschState :=
  { neighbors := []
    current_asn := 0
    last_sync_asn := 0
    current_link_start := 0
    tsch_join_priority := 255
    associated := false
    joining_network_fired := false }

/-! ### Theorems -/

/-- Claim C10: while the global TSCH lock is held, the read-only queue
queries fail safe instead of reading the neighbor list:
`tsch_queue_get_nbr` and `tsch_queue_get_time_source` return `NULL` for
every address, `tsch_queue_packet_count` returns `-1`, and
`tsch_queue_is_empty` returns false even when the neighbor's ring buffer
holds no packets. -/
theorem locked_queries_fail_safe (nbrs : List TschNeighbor) (addr : LinkAddr)
    (MAC_MIN_BE nbrCap : Nat) (n : Option TschNeighbor) :
    tsch_queue_get_nbr true nbrs addr = none ∧
    tsch_queue_get_time_source true nbrs = none ∧
    (tsch_queue_packet_count true MAC_MIN_BE nbrCap nbrs addr).1 = -1 ∧
    tsch_queue_is_empty true n = false := by
  refine ⟨?_, ?_, ?_, ?_⟩
  · simp [tsch_queue_get_nbr]
  · simp [tsch_queue_get_time_source]
  · simp [tsch_queue_packet_count]
  · simp [tsch_queue_is_empty]

/-- Claim C4: on a unicast TX acknowledged by the time-source neighbor
with an ACK carrying a sync IE, the stored `drift_correction` equals the
received drift clamped symmetrically at `±TsLongGT/2`: a drift within the
bound is stored exactly, and any value outside yields exactly the clamp. -/
theorem drift_correction_clamped (TsLongGT received_drift : Int)
    (h : 0 ≤ TsLongGT) :
    tsch_tx_ack_drift_correction true true TsLongGT received_drift =
      some (tsch_truncate_drift (TRUNCATE_SYNC_IE_BOUND TsLongGT) received_drift) ∧
    (|received_drift| ≤ TsLongGT / 2 →
      tsch_truncate_drift (TRUNCATE_SYNC_IE_BOUND TsLongGT) received_drift =
        received_drift) ∧
    (received_drift > TsLongGT / 2 →
      tsch_truncate_drift (TRUNCATE_SYNC_IE_BOUND TsLongGT) received_drift =
        TsLongGT / 2) ∧
    (received_drift < -(TsLongGT / 2) →
      tsch_truncate_drift (TRUNCATE_SYNC_IE_BOUND TsLongGT) received_drift =
        -(TsLongGT / 2)) := by
  have hb : (0 : Int) ≤ TsLongGT / 2 := by positivity
  refine ⟨?_, ?_, ?_, ?_⟩
  · simp [tsch_tx_ack_drift_correction]
  · intro hle
    rw [abs_le] at hle
    simp only [tsch_truncate_drift, TRUNCATE_SYNC_IE_BOUND] at *
    split_ifs <;> omega
  · intro hgt
    simp only [tsch_truncate_drift, TRUNCATE_SYNC_IE_BOUND] at *
    split_ifs <;> omega
  · intro hlt
    simp only [tsch_truncate_drift, TRUNCATE_SYNC_IE_BOUND] at *
    split_ifs <;> omega

/-- Witness for `drift_correction_clamped` at `TsLongGT = 40`,
`received_drift = 7` (so the bound is 20 and the drift is kept exactly). -/
theorem drift_correction_clamped_witness :
    tsch_truncate_drift (TRUNCATE_SYNC_IE_BOUND 40) 7 = 7 :=
  (drift_correction_clamped 40 7 (by decide)).2.1 (by decide)

/-- Claim C5: at the end of every slot operation on a non-coordinator
node, if the ASN difference between `current_asn` and `last_sync_asn`
exceeds the desynchronization threshold in slots, then `associated` is
cleared and no next slot is scheduled; while the sync age stays at or
below the threshold, this path never clears `associated` and the next
slot is scheduled. -/
theorem desync_epilogue (current_asn last_sync_asn : Nat)
    (desync_threshold_slots : Int) (associated : Bool) :
    (ASN_DIFF current_asn last_sync_asn > desync_threshold_slots →
      tsch_slot_operation_epilogue false current_asn last_sync_asn
        desync_threshold_slots associated = (false, false)) ∧
    (ASN_DIFF current_asn last_sync_asn ≤ desync_threshold_slots →
      tsch_slot_operation_epilogue false current_asn last_sync_asn
        desync_threshold_slots associated = (associated, true)) := by
  constructor
  · intro hgt
    simp [tsch_slot_operation_epilogue, hgt]
  · intro hle
    simp [tsch_slot_operation_epilogue, not_lt.mpr hle]

/-- Witness for `desync_epilogue`: with `current_asn = 200`,
`last_sync_asn = 0` and a threshold of 100 slots the node desynchronizes. -/
theorem desync_epilogue_witness :
    tsch_slot_operation_epilogue false 200 0 100 true = (false, false) :=
  (desync_epilogue 200 0 100 true).1 (by decide)

/-- The seqno stamped by one EB-generation round is either absent (no EB
generated) or the advanced counter value. -/
theorem tsch_send_eb_step_stamp (locked : Bool) (MAC_MIN_BE nbrCap queueCap : Nat)
    (st : TschQueueState) (s eb_payload : Nat) (eb_len_ok : Bool) :
    (tsch_send_eb_step locked MAC_MIN_BE nbrCap queueCap st s eb_payload
        eb_len_ok).2.2 = none ∨
    (tsch_send_eb_step locked MAC_MIN_BE nbrCap queueCap st s eb_payload
        eb_len_ok).2.2 = some (tsch_next_packet_seqno s) := by
  rcases hpc : tsch_queue_packet_count locked MAC_MIN_BE nbrCap st.neighbors
      tsch_eb_address with ⟨cnt, nbrs1⟩
  simp only [tsch_send_eb_step, hpc]
  split_ifs with h1 h2
  · rcases hap : tsch_queue_add_packet locked MAC_MIN_BE nbrCap queueCap
        { st with neighbors := nbrs1 } tsch_eb_address eb_payload
        (tsch_next_packet_seqno s) with ⟨ok, st3⟩
    simp [hap]
  · simp
  · simp

/-- Claim C9: the TSCH sequence-number counter is never left at zero: both
`send_packet` and the EB generator advance it skipping the value 0, every
outgoing frame built by `send_packet` is stamped with the advanced value,
and every generated enhanced beacon carries a nonzero sequence number. -/
theorem packet_seqno_nonzero (s : Nat) (MAC_MIN_BE nbrCap queueCap : Nat)
    (st : TschQueueState) (recv_addr : LinkAddr) (payload eb_payload : Nat)
    (framer_ok eb_len_ok : Bool) :
    tsch_next_packet_seqno s ≠ 0 ∧
    (send_packet false MAC_MIN_BE nbrCap queueCap st s recv_addr payload
        framer_ok).2.2.2 = tsch_next_packet_seqno s ∧
    (∀ st2 s2 e,
      tsch_send_eb_step false MAC_MIN_BE nbrCap queueCap st s eb_payload
          eb_len_ok = (st2, s2, some e) → e ≠ 0) := by
  have hnz : tsch_next_packet_seqno s ≠ 0 := by
    simp only [tsch_next_packet_seqno]
    split <;> omega
  refine ⟨hnz, ?_, ?_⟩
  · rcases hpc : tsch_queue_packet_count false MAC_MIN_BE nbrCap st.neighbors
        (if recv_addr = linkaddr_null then tsch_broadcast_address
         else recv_addr) with ⟨cnt, nbrs1⟩
    simp only [send_packet, hpc]
    split
    · rfl
    · split
      · rfl
      · rfl
  · intro st2 s2 e heq
    have h2 := tsch_send_eb_step_stamp false MAC_MIN_BE nbrCap queueCap st s
      eb_payload eb_len_ok
    rw [heq] at h2
    rcases h2 with h2 | h2
    · exact Option.noConfusion h2
    · have h3 : some e = some (tsch_next_packet_seqno s) := h2
      rw [Option.some.inj h3]; exact hnz

/-- Witness for `packet_seqno_nonzero` at counter value 255 (the wrap
case) on the sample state: the EB generated there carries seqno 1. -/
theorem packet_seqno_nonzero_witness :
    tsch_next_packet_seqno 255 ≠ 0 ∧ (1 : Nat) ≠ 0 :=
  ⟨(packet_seqno_nonzero 255 1 8 8 sampleQueueState sampleAddr 7 9 true
      true).1,
   (packet_seqno_nonzero 255 1 8 8 sampleQueueState sampleAddr 7 9 true
      true).2.2
     (tsch_send_eb_step false 1 8 8 sampleQueueState 255 9 true).1
     (tsch_send_eb_step false 1 8 8 sampleQueueState 255 9 true).2.1
     1 (by decide)⟩

/-- The window picked by `tsch_queue_backoff_inc` never exceeds
`2 ^ backoff_exponent`, including the `uint8_t` wrap cases. -/
theorem backoff_inc_window_le (be w : Nat)
    (hw : w ≤ ((2 ^ be - 1) % 256) % 256) : (w + 1) % 256 ≤ 2 ^ be := by
  by_cases h7 : be ≤ 7
  · have h1 : 2 ^ be ≤ 128 := by
      calc 2 ^ be ≤ 2 ^ 7 := Nat.pow_le_pow_right (by norm_num) h7
        _ = 128 := by norm_num
    have h2 : 1 ≤ 2 ^ be := Nat.one_le_two_pow
    omega
  · have h1 : 256 ≤ 2 ^ be := by
      calc (256 : Nat) = 2 ^ 8 := by norm_num
        _ ≤ 2 ^ be := Nat.pow_le_pow_right (by norm_num) (by omega)
    omega

/-- Claim C6: the invariant `backoff_window ≤ 2 ^ backoff_exponent` is
preserved by every queue operation: `tsch_queue_backoff_reset` sets the
window to 0 and the exponent to `MAC_MIN_BE`; `tsch_queue_backoff_inc`
sets the exponent to `min(old + 1, MAC_MAX_BE)` and picks the window in
`[1, 2^exponent]` (the masked PRNG value in `[0, 2^exponent - 1]` plus
one; stated for the configurations with `MAC_MAX_BE ≤ 7`, where the
`uint8_t` window cannot wrap); and
`tsch_queue_update_all_backoff_windows` only decrements windows that are
positive. -/
theorem backoff_window_invariant (MAC_MIN_BE MAC_MAX_BE seed : Nat)
    (n : TschNeighbor) (dest_addr : LinkAddr) (nbrs : List TschNeighbor) :
    (tsch_queue_backoff_reset MAC_MIN_BE n).backoff_window = 0 ∧
    (tsch_queue_backoff_reset MAC_MIN_BE n).backoff_exponent = MAC_MIN_BE ∧
    (tsch_queue_backoff_inc MAC_MAX_BE seed n).1.backoff_exponent
        = min (n.backoff_exponent + 1) MAC_MAX_BE ∧
    (tsch_queue_backoff_inc MAC_MAX_BE seed n).1.backoff_window
        ≤ 2 ^ (tsch_queue_backoff_inc MAC_MAX_BE seed n).1.backoff_exponent ∧
    (MAC_MAX_BE ≤ 7 →
      1 ≤ (tsch_queue_backoff_inc MAC_MAX_BE seed n).1.backoff_window ∧
      (tsch_queue_backoff_inc MAC_MAX_BE seed n).1.backoff_window =
        tsch_random_byte_val (tsch_random_step seed)
          ((2 ^ min (n.backoff_exponent + 1) MAC_MAX_BE - 1) % 256) + 1) ∧
    (∀ m ∈ tsch_queue_update_all_backoff_windows false dest_addr nbrs,
      ∃ m0 ∈ nbrs,
        m = m0 ∨
          (0 < m0.backoff_window ∧
           m = { m0 with backoff_window := m0.backoff_window - 1 })) ∧
    ((∀ m0 ∈ nbrs, m0.backoff_window ≤ 2 ^ m0.backoff_exponent) →
      ∀ m ∈ tsch_queue_update_all_backoff_windows false dest_addr nbrs,
        m.backoff_window ≤ 2 ^ m.backoff_exponent) := by
  have hexp : (tsch_queue_backoff_inc MAC_MAX_BE seed n).1.backoff_exponent
      = min (n.backoff_exponent + 1) MAC_MAX_BE := rfl
  have hwin : (tsch_queue_backoff_inc MAC_MAX_BE seed n).1.backoff_window
      = (tsch_random_byte_val (tsch_random_step seed)
          ((2 ^ min (n.backoff_exponent + 1) MAC_MAX_BE - 1) % 256) + 1) % 256 :=
    rfl
  have hmask : tsch_random_byte_val (tsch_random_step seed)
      ((2 ^ min (n.backoff_exponent + 1) MAC_MAX_BE - 1) % 256)
      ≤ ((2 ^ min (n.backoff_exponent + 1) MAC_MAX_BE - 1) % 256) % 256 :=
    Nat.and_le_right
  have hdecomp : ∀ m ∈ tsch_queue_update_all_backoff_windows false dest_addr nbrs,
      ∃ m0 ∈ nbrs,
        m = m0 ∨
          (0 < m0.backoff_window ∧
           m = { m0 with backoff_window := m0.backoff_window - 1 }) := by
    intro m hm
    simp only [tsch_queue_update_all_backoff_windows, Bool.false_eq_true,
      if_false, List.mem_map] at hm
    rcases hm with ⟨m0, hm0, hupd⟩
    refine ⟨m0, hm0, ?_⟩
    by_cases hc : m0.backoff_window ≠ 0 ∧
        ((m0.tx_links_count = 0 ∧ dest_addr = tsch_broadcast_address) ∨
         (0 < m0.tx_links_count ∧ dest_addr = m0.addr))
    · right
      rw [if_pos hc] at hupd
      exact ⟨by omega, hupd.symm⟩
    · left
      rw [if_neg hc] at hupd
      exact hupd.symm
  refine ⟨rfl, rfl, hexp, ?_, ?_, hdecomp, ?_⟩
  · rw [hexp, hwin]
    exact backoff_inc_window_le _ _ hmask
  · intro h7
    have hbe : min (n.backoff_exponent + 1) MAC_MAX_BE ≤ 7 := by omega
    have h1 : 2 ^ min (n.backoff_exponent + 1) MAC_MAX_BE ≤ 128 := by
      calc 2 ^ min (n.backoff_exponent + 1) MAC_MAX_BE
          ≤ 2 ^ 7 := Nat.pow_le_pow_right (by norm_num) hbe
        _ = 128 := by norm_num
    have h2 : 1 ≤ 2 ^ min (n.backoff_exponent + 1) MAC_MAX_BE :=
      Nat.one_le_two_pow
    rw [hwin]
    constructor
    · omega
    · omega
  · intro hinv m hm
    rcases hdecomp m hm with ⟨m0, hm0, hcase⟩
    rcases hcase with hcase | hcase
    · rw [hcase]; exact hinv m0 hm0
    · rw [hcase.2]
      have := hinv m0 hm0
      simpa using Nat.le_trans (Nat.sub_le _ _) this

/-- Witness for `backoff_window_invariant`: with `MAC_MAX_BE = 5`, seed 0
and the sample neighbor (exponent 1), the picked window is in range. -/
theorem backoff_window_invariant_witness :
    1 ≤ (tsch_queue_backoff_inc 5 0 sampleNbr).1.backoff_window ∧
    (tsch_queue_backoff_inc 5 0 sampleNbr).1.backoff_window =
      tsch_random_byte_val (tsch_random_step 0)
        ((2 ^ min (sampleNbr.backoff_exponent + 1) 5 - 1) % 256) + 1 :=
  (backoff_window_invariant 1 5 0 sampleNbr tsch_broadcast_address
      [sampleNbr]).2.2.2.2.1 (by decide)

/-- Soundness of the scan of `tsch_queue_get_unicast_packet_for_any`: a
returned packet belongs to a listed, non-broadcast neighbor with no TX
link at all, and is that neighbor's head packet passing the shared-link
mask. -/
theorem unicast_for_any_loop_sound (is_shared_link : Bool) :
    ∀ (nbrs : List TschNeighbor) (p : TschPacket) (n : TschNeighbor),
      tsch_queue_get_unicast_packet_for_any_loop is_shared_link nbrs
          = some (p, n) →
      n ∈ nbrs ∧ n.is_broadcast = false ∧ n.tx_links_count = 0 ∧
        tsch_queue_get_packet_for_nbr false (some n) is_shared_link = some p := by
  intro nbrs
  induction nbrs with
  | nil => intro p n h; exact absurd h (by simp [tsch_queue_get_unicast_packet_for_any_loop])
  | cons m rest ih =>
    intro p n h
    rw [tsch_queue_get_unicast_packet_for_any_loop] at h
    by_cases hc : ¬m.is_broadcast ∧ m.tx_links_count = 0
    · rw [if_pos hc] at h
      rcases hg : tsch_queue_get_packet_for_nbr false (some m) is_shared_link with
        _ | p0
      · rw [hg] at h
        rcases ih p n h with ⟨hmem, h1, h2, h3⟩
        exact ⟨List.mem_cons_of_mem _ hmem, h1, h2, h3⟩
      · rw [hg] at h
        have hpn : p0 = p ∧ m = n := by
          have := h
          simp only [Option.some.injEq, Prod.mk.injEq] at this
          exact this
        rcases hpn with ⟨hp0, hm⟩
        subst hp0; subst hm
        exact ⟨List.mem_cons_self _ _, by simpa using hc.1, hc.2, hg⟩
    · rw [if_neg hc] at h
      rcases ih p n h with ⟨hmem, h1, h2, h3⟩
      exact ⟨List.mem_cons_of_mem _ hmem, h1, h2, h3⟩

/-- The scan of `tsch_queue_get_unicast_packet_for_any` is the first-hit
search over the eligible neighbors in list order. -/
theorem unicast_for_any_loop_findSome (is_shared_link : Bool) :
    ∀ nbrs : List TschNeighbor,
      tsch_queue_get_unicast_packet_for_any_loop is_shared_link nbrs =
        nbrs.findSome? (fun n =>
          if ¬n.is_broadcast ∧ n.tx_links_count = 0 then
            (tsch_queue_get_packet_for_nbr false (some n) is_shared_link).map
              (fun p => (p, n))
          else none) := by
  intro nbrs
  induction nbrs with
  | nil => rfl
  | cons m rest ih =>
    rw [tsch_queue_get_unicast_packet_for_any_loop, List.findSome?_cons]
    by_cases hc : ¬m.is_broadcast ∧ m.tx_links_count = 0
    · rw [if_pos hc, if_pos hc]
      rcases hg : tsch_queue_get_packet_for_nbr false (some m) is_shared_link with
        _ | p0
      · simpa using ih
      · simp
    · rw [if_neg hc, if_neg hc]
      simpa using ih

/-- Amended claim C7: when the global lock is free,
`tsch_queue_get_unicast_packet_for_any` considers, in neighbor-list
order, exactly the non-broadcast neighbors with `tx_links_count == 0`
(no TX link of any kind), and returns the first head packet that passes
the shared-link mask, writing the owning neighbor through the
out-parameter; for all other neighbors no packet is returned. -/
theorem unicast_for_any_considered_set (nbrs : List TschNeighbor)
    (is_shared_link : Bool) :
    tsch_queue_get_unicast_packet_for_any false nbrs is_shared_link =
      nbrs.findSome? (fun n =>
        if ¬n.is_broadcast ∧ n.tx_links_count = 0 then
          (tsch_queue_get_packet_for_nbr false (some n) is_shared_link).map
            (fun p => (p, n))
        else none) ∧
    (∀ p n,
      tsch_queue_get_unicast_packet_for_any false nbrs is_shared_link
          = some (p, n) →
      n ∈ nbrs ∧ n.is_broadcast = false ∧ n.tx_links_count = 0 ∧
        tsch_queue_get_packet_for_nbr false (some n) is_shared_link = some p) := by
  have hunlock : tsch_queue_get_unicast_packet_for_any false nbrs is_shared_link
      = tsch_queue_get_unicast_packet_for_any_loop is_shared_link nbrs := rfl
  constructor
  · rw [hunlock]
    exact unicast_for_any_loop_findSome is_shared_link nbrs
  · rw [hunlock]
    exact unicast_for_any_loop_sound is_shared_link nbrs

/-- Witness for `unicast_for_any_considered_set` on a two-neighbor list:
the eligible sample neighbor has an empty queue, the other one only a
shared TX link, so nothing is returned. -/
theorem unicast_for_any_considered_set_witness :
    [sampleNbr, sharedOnlyNbr].findSome? (fun n =>
      if ¬n.is_broadcast ∧ n.tx_links_count = 0 then
        (tsch_queue_get_packet_for_nbr false (some n) true).map
          (fun p => (p, n))
      else none) = none :=
  ((unicast_for_any_considered_set [sampleNbr, sharedOnlyNbr] true).1.symm.trans
    (by decide))

/-- Counterexample to claim C7 as stated: `sharedOnlyNbr` is a
non-broadcast neighbor with no dedicated TX link whose head packet passes
the shared-link mask (its backoff window is 0), yet
`tsch_queue_get_unicast_packet_for_any` skips it (the code tests
`tx_links_count == 0`, not `dedicated_tx_links_count == 0`) and returns
nothing. -/
theorem unicast_for_any_claim_counterexample :
    sharedOnlyNbr.is_broadcast = false ∧
    sharedOnlyNbr.dedicated_tx_links_count = 0 ∧
    tsch_queue_get_packet_for_nbr false (some sharedOnlyNbr) true
      = some samplePacket ∧
    tsch_queue_get_unicast_packet_for_any false [sharedOnlyNbr] true = none := by
  decide

/-- Every slot distance is positive: a link at the current timeslot is a
full slotframe away. -/
theorem time_to_timeslot_pos (size t l_ts : Nat) (ht : t < size) :
    1 ≤ time_to_timeslot size t l_ts := by
  unfold time_to_timeslot
  split <;> omega

/-- Folding the earliest-occurrence step over a link list, starting from a
positive current best, yields the minimum of the current best and the
distances of the list. -/
theorem next_active_foldl_some (size t : Nat) :
    ∀ (links : List TschLink) (d : Nat) (lk : TschLink),
      (∀ l ∈ links, 1 ≤ time_to_timeslot size t l.timeslot) → 1 ≤ d →
      ∃ d2 lk2,
        links.foldl (next_active_step size t) (d, some lk) = (d2, some lk2) ∧
        1 ≤ d2 ∧ d2 ≤ d ∧
        ((d2 = d ∧ lk2 = lk) ∨
          (lk2 ∈ links ∧ d2 = time_to_timeslot size t lk2.timeslot)) ∧
        (∀ l ∈ links, d2 ≤ time_to_timeslot size t l.timeslot) := by
  intro links
  induction links with
  | nil =>
    intro d lk _ hd
    exact ⟨d, lk, rfl, hd, le_refl d, Or.inl ⟨rfl, rfl⟩, by simp⟩
  | cons l rest ih =>
    intro d lk hpos hd
    rw [List.foldl_cons]
    by_cases hlt : time_to_timeslot size t l.timeslot < d
    · have hstep : next_active_step size t (d, some lk) l =
          (time_to_timeslot size t l.timeslot, some l) := by
        unfold next_active_step
        rw [if_pos (Or.inr hlt)]
      rw [hstep]
      rcases ih (time_to_timeslot size t l.timeslot) l
          (fun l2 h2 => hpos l2 (List.mem_cons_of_mem _ h2))
          (hpos l (List.mem_cons_self _ _)) with
        ⟨d2, lk2, heq, h1, h2, h3, h4⟩
      refine ⟨d2, lk2, heq, h1, by omega, ?_, ?_⟩
      · rcases h3 with ⟨h3a, h3b⟩ | ⟨h3a, h3b⟩
        · exact Or.inr ⟨h3b ▸ List.mem_cons_self _ _, by rw [h3b, h3a]⟩
        · exact Or.inr ⟨List.mem_cons_of_mem _ h3a, h3b⟩
      · intro l2 h2m
        rcases List.mem_cons.mp h2m with h2m | h2m
        · rw [h2m] at *; omega
        · exact h4 l2 h2m
    · have hstep : next_active_step size t (d, some lk) l = (d, some lk) := by
        unfold next_active_step
        rw [if_neg]
        push_neg
        exact ⟨by omega, by omega⟩
      rw [hstep]
      rcases ih d lk (fun l2 h2 => hpos l2 (List.mem_cons_of_mem _ h2)) hd with
        ⟨d2, lk2, heq, h1, h2, h3, h4⟩
      refine ⟨d2, lk2, heq, h1, h2, ?_, ?_⟩
      · rcases h3 with h3 | ⟨h3a, h3b⟩
        · exact Or.inl h3
        · exact Or.inr ⟨List.mem_cons_of_mem _ h3a, h3b⟩
      · intro l2 h2m
        rcases List.mem_cons.mp h2m with h2m | h2m
        · rw [h2m] at *; omega
        · exact h4 l2 h2m

/-- Folding the earliest-occurrence step over a nonempty link list from
the `(0, NULL)` sentinel yields the minimum distance of the list. -/
theorem next_active_foldl_zero (size t : Nat) (links : List TschLink)
    (hpos : ∀ l ∈ links, 1 ≤ time_to_timeslot size t l.timeslot)
    (hne : links ≠ []) :
    ∃ d2 lk2,
      links.foldl (next_active_step size t) (0, none) = (d2, some lk2) ∧
      1 ≤ d2 ∧ lk2 ∈ links ∧ d2 = time_to_timeslot size t lk2.timeslot ∧
      (∀ l ∈ links, d2 ≤ time_to_timeslot size t l.timeslot) := by
  rcases links with _ | ⟨l, rest⟩
  · exact absurd rfl hne
  · rw [List.foldl_cons]
    have hstep : next_active_step size t (0, none) l =
        (time_to_timeslot size t l.timeslot, some l) := by
      unfold next_active_step
      rw [if_pos (Or.inl rfl)]
    rw [hstep]
    rcases next_active_foldl_some size t rest
        (time_to_timeslot size t l.timeslot) l
        (fun l2 h2 => hpos l2 (List.mem_cons_of_mem _ h2))
        (hpos l (List.mem_cons_self _ _)) with
      ⟨d2, lk2, heq, h1, h2, h3, h4⟩
    refine ⟨d2, lk2, heq, h1, ?_, ?_, ?_⟩
    · rcases h3 with ⟨_, h3b⟩ | ⟨h3a, _⟩
      · exact h3b ▸ List.mem_cons_self _ _
      · exact List.mem_cons_of_mem _ h3a
    · rcases h3 with ⟨h3a, h3b⟩ | ⟨_, h3b⟩
      · rw [h3b, h3a]
      · exact h3b
    · intro l2 h2m
      rcases List.mem_cons.mp h2m with h2m | h2m
      · rw [h2m] at *; omega
      · exact h4 l2 h2m

/-- The slotframe loop of `tsch_schedule_get_next_active_link`, entered
with a positive current best, returns the minimum of the current best and
all link distances of the remaining slotframes. -/
theorem next_active_outer_some (asn : Nat) :
    ∀ (sfs : List TschSlotframe) (d0 : Nat) (lk0 : TschLink),
      (∀ sf ∈ sfs, 0 < sf.size) → 1 ≤ d0 →
      ∃ d lk,
        tsch_schedule_get_next_active_link_loop asn sfs (d0, some lk0)
          = (d, some lk) ∧
        1 ≤ d ∧ d ≤ d0 ∧
        ((d = d0 ∧ lk = lk0) ∨
          (∃ sf ∈ sfs, lk ∈ sf.links_list ∧ d = link_slot_distance asn sf lk)) ∧
        (∀ sf ∈ sfs, ∀ l ∈ sf.links_list, d ≤ link_slot_distance asn sf l) := by
  intro sfs
  induction sfs with
  | nil =>
    intro d0 lk0 _ hd0
    exact ⟨d0, lk0, rfl, hd0, le_refl _, Or.inl ⟨rfl, rfl⟩, by simp⟩
  | cons sf rest ih =>
    intro d0 lk0 hsz hd0
    have hszsf : 0 < sf.size := hsz sf (List.mem_cons_self _ _)
    have hmod : asn % sf.size < sf.size := Nat.mod_lt _ hszsf
    have hpos : ∀ l ∈ sf.links_list,
        1 ≤ time_to_timeslot sf.size (asn % sf.size) l.timeslot :=
      fun l _ => time_to_timeslot_pos _ _ _ hmod
    rw [tsch_schedule_get_next_active_link_loop]
    rcases next_active_foldl_some sf.size (asn % sf.size) sf.links_list d0 lk0
        hpos hd0 with ⟨d1, lk1, heq1, h11, h12, h13, h14⟩
    rw [heq1]
    rcases ih d1 lk1 (fun sf2 h2 => hsz sf2 (List.mem_cons_of_mem _ h2)) h11 with
      ⟨d, lk, heq, h1, h2, h3, h4⟩
    refine ⟨d, lk, heq, h1, by omega, ?_, ?_⟩
    · rcases h3 with ⟨h3a, h3b⟩ | ⟨sf2, hsf2, h3a, h3b⟩
      · rcases h13 with ⟨h13a, h13b⟩ | ⟨h13a, h13b⟩
        · exact Or.inl ⟨by omega, by rw [h3b, h13b]⟩
        · exact Or.inr ⟨sf, List.mem_cons_self _ _, h3b ▸ h13a,
            by rw [h3a, h13b, h3b]; rfl⟩
      · exact Or.inr ⟨sf2, List.mem_cons_of_mem _ hsf2, h3a, h3b⟩
    · intro sf2 hsf2 l hl
      rcases List.mem_cons.mp hsf2 with hsf2 | hsf2
      · subst hsf2
        have := h14 l hl
        have : d ≤ d1 := h2
        calc d ≤ d1 := h2
          _ ≤ time_to_timeslot sf2.size (asn % sf2.size) l.timeslot := h14 l hl
      · exact h4 sf2 hsf2 l hl

/-- The slotframe loop of `tsch_schedule_get_next_active_link`, entered
with the `(0, NULL)` sentinel, finds the minimum positive link distance
across all slotframes whenever some link is installed. -/
theorem next_active_outer_zero (asn : Nat) :
    ∀ sfs : List TschSlotframe,
      (∀ sf ∈ sfs, 0 < sf.size) →
      (∃ sf ∈ sfs, sf.links_list ≠ []) →
      ∃ d lk,
        tsch_schedule_get_next_active_link_loop asn sfs (0, none)
          = (d, some lk) ∧
        1 ≤ d ∧
        (∃ sf ∈ sfs, lk ∈ sf.links_list ∧ d = link_slot_distance asn sf lk) ∧
        (∀ sf ∈ sfs, ∀ l ∈ sf.links_list, d ≤ link_slot_distance asn sf l) := by
  intro sfs
  induction sfs with
  | nil =>
    intro _ hlink
    simp at hlink
  | cons sf rest ih =>
    intro hsz hlink
    have hszsf : 0 < sf.size := hsz sf (List.mem_cons_self _ _)
    have hmod : asn % sf.size < sf.size := Nat.mod_lt _ hszsf
    have hpos : ∀ l ∈ sf.links_list,
        1 ≤ time_to_timeslot sf.size (asn % sf.size) l.timeslot :=
      fun l _ => time_to_timeslot_pos _ _ _ hmod
    rw [tsch_schedule_get_next_active_link_loop]
    by_cases hne : sf.links_list = []
    · rw [hne]
      have hlink2 : ∃ sf2 ∈ rest, sf2.links_list ≠ [] := by
        rcases hlink with ⟨sf2, hsf2, h2⟩
        rcases List.mem_cons.mp hsf2 with hsf2 | hsf2
        · subst hsf2; exact absurd hne h2
        · exact ⟨sf2, hsf2, h2⟩
      rcases ih (fun sf2 h2 => hsz sf2 (List.mem_cons_of_mem _ h2)) hlink2 with
        ⟨d, lk, heq, h1, ⟨sf2, hsf2, h3a, h3b⟩, h4⟩
      refine ⟨d, lk, heq, h1,
        ⟨sf2, List.mem_cons_of_mem _ hsf2, h3a, h3b⟩, ?_⟩
      intro sf3 hsf3 l hl
      rcases List.mem_cons.mp hsf3 with hsf3 | hsf3
      · subst hsf3; rw [hne] at hl; simp at hl
      · exact h4 sf3 hsf3 l hl
    · rcases next_active_foldl_zero sf.size (asn % sf.size) sf.links_list hpos
          hne with ⟨d1, lk1, heq1, h11, h12, h13, h14⟩
      rw [heq1]
      rcases next_active_outer_some asn rest d1 lk1
          (fun sf2 h2 => hsz sf2 (List.mem_cons_of_mem _ h2)) h11 with
        ⟨d, lk, heq, h1, h2, h3, h4⟩
      refine ⟨d, lk, heq, h1, ?_, ?_⟩
      · rcases h3 with ⟨h3a, h3b⟩ | ⟨sf2, hsf2, h3a, h3b⟩
        · exact ⟨sf, List.mem_cons_self _ _, h3b ▸ h12,
            by rw [h3a, h3b, h13]; rfl⟩
        · exact ⟨sf2, List.mem_cons_of_mem _ hsf2, h3a, h3b⟩
      · intro sf2 hsf2 l hl
        rcases List.mem_cons.mp hsf2 with hsf2 | hsf2
        · subst hsf2
          calc d ≤ d1 := h2
            _ ≤ time_to_timeslot sf2.size (asn % sf2.size) l.timeslot :=
              h14 l hl
        · exact h4 sf2 hsf2 l hl

/-- Claim C2: if at least one link is installed and the global lock is
free, `tsch_schedule_get_next_active_link` returns a link and writes into
`*time_offset` the minimum positive slot distance from the ASN to any
installed link's next occurrence, where the distance of a link at
timeslot `ts` in a slotframe of size `S` from current timeslot
`t = asn mod S` is `ts - t` if `ts > t` and `S + ts - t` otherwise, and
the returned link attains this minimum. -/
theorem next_active_link_min (sfs : List TschSlotframe) (asn : Nat)
    (hsz : ∀ sf ∈ sfs, 0 < sf.size)
    (hlink : ∃ sf ∈ sfs, sf.links_list ≠ []) :
    ∃ d lk,
      tsch_schedule_get_next_active_link false sfs asn = (some lk, some d) ∧
      1 ≤ d ∧
      (∃ sf ∈ sfs, lk ∈ sf.links_list ∧ d = link_slot_distance asn sf lk) ∧
      (∀ sf ∈ sfs, ∀ l ∈ sf.links_list, d ≤ link_slot_distance asn sf l) ∧
      (∀ (sf : TschSlotframe) (l : TschLink),
        link_slot_distance asn sf l =
          if asn % sf.size < l.timeslot then l.timeslot - asn % sf.size
          else sf.size + l.timeslot - asn % sf.size) := by
  rcases next_active_outer_zero asn sfs hsz hlink with ⟨d, lk, heq, h1, h3, h4⟩
  refine ⟨d, lk, ?_, h1, h3, h4, fun _ _ => rfl⟩
  show (match tsch_schedule_get_next_active_link_loop asn sfs (0, none) with
    | (ce, cel) => (cel, some ce)) = (some lk, some d)
  rw [heq]

/-- Witness for `next_active_link_min`: a single slotframe of size 17 with
one link at timeslot 5, queried at ASN 0, is 5 slots away. -/
theorem next_active_link_min_witness :
    ∃ d lk,
      tsch_schedule_get_next_active_link false
        [⟨0, 17, [⟨0, 7, 1, 0, 5, 0, tsch_broadcast_address⟩]⟩] 0
        = (some lk, some d) ∧
      1 ≤ d ∧
      (∃ sf ∈ [(⟨0, 17, [⟨0, 7, 1, 0, 5, 0, tsch_broadcast_address⟩]⟩ :
            TschSlotframe)], lk ∈ sf.links_list ∧
          d = link_slot_distance 0 sf lk) ∧
      (∀ sf ∈ [(⟨0, 17, [⟨0, 7, 1, 0, 5, 0, tsch_broadcast_address⟩]⟩ :
            TschSlotframe)], ∀ l ∈ sf.links_list,
          d ≤ link_slot_distance 0 sf l) ∧
      (∀ (sf : TschSlotframe) (l : TschLink),
        link_slot_distance 0 sf l =
          if 0 % sf.size < l.timeslot then l.timeslot - 0 % sf.size
          else sf.size + l.timeslot - 0 % sf.size) :=
  next_active_link_min _ 0 (by decide)
    ⟨⟨0, 17, [⟨0, 7, 1, 0, 5, 0, tsch_broadcast_address⟩]⟩, by decide⟩

/-- A successful timeslot lookup returns an installed link at that
timeslot. -/
theorem get_link_from_timeslot_loop_some (ts : Nat) :
    ∀ (ls : List TschLink) (l : TschLink),
      tsch_schedule_get_link_from_timeslot_loop ts ls = some l →
      l ∈ ls ∧ l.timeslot = ts := by
  intro ls
  induction ls with
  | nil => intro l h; exact absurd h (by simp [tsch_schedule_get_link_from_timeslot_loop])
  | cons x rest ih =>
    intro l h
    rw [tsch_schedule_get_link_from_timeslot_loop] at h
    by_cases hx : x.timeslot = ts
    · rw [if_pos hx] at h
      have : x = l := Option.some.inj h
      subst this
      exact ⟨List.mem_cons_self _ _, hx⟩
    · rw [if_neg hx] at h
      rcases ih l h with ⟨hm, ht⟩
      exact ⟨List.mem_cons_of_mem _ hm, ht⟩

/-- A failed timeslot lookup means no link is installed at that
timeslot. -/
theorem get_link_from_timeslot_loop_none (ts : Nat) :
    ∀ ls : List TschLink,
      tsch_schedule_get_link_from_timeslot_loop ts ls = none →
      ∀ l ∈ ls, l.timeslot ≠ ts := by
  intro ls
  induction ls with
  | nil => intro _ l hl; simp at hl
  | cons x rest ih =>
    intro h l hl
    rw [tsch_schedule_get_link_from_timeslot_loop] at h
    by_cases hx : x.timeslot = ts
    · rw [if_pos hx] at h; exact Option.noConfusion h
    · rw [if_neg hx] at h
      rcases List.mem_cons.mp hl with hl | hl
      · subst hl; exact hx
      · exact ih h l hl

/-- The TX bit of a link-option word is 0 or 1. -/
theorem land_tx_le_one (x : Nat) : x &&& LINK_OPTION_TX ≤ 1 := by
  unfold LINK_OPTION_TX
  exact Nat.and_le_right

/-- The tie-break keeps one of the two links and the loser has strictly
lower priority, provided the two slotframe handles differ. -/
theorem select_best_link_spec (cb l : TschLink)
    (hne : cb.slotframe_handle ≠ l.slotframe_handle) :
    (select_best_link cb l = cb ∧ link_prio_lt l cb) ∨
    (select_best_link cb l = l ∧ link_prio_lt cb l) := by
  have hcb := land_tx_le_one cb.link_options
  have hll := land_tx_le_one l.link_options
  unfold select_best_link
  by_cases heq : cb.link_options &&& LINK_OPTION_TX = l.link_options &&& LINK_OPTION_TX
  · rw [if_pos heq]
    have hiff : link_has_tx cb ↔ link_has_tx l := by
      unfold link_has_tx; rw [heq]
    by_cases hlt : l.slotframe_handle < cb.slotframe_handle
    · rw [if_pos hlt]
      exact Or.inr ⟨rfl, Or.inr ⟨hiff, hlt⟩⟩
    · rw [if_neg hlt]
      exact Or.inl ⟨rfl, Or.inr ⟨hiff.symm, by omega⟩⟩
  · rw [if_neg heq]
    by_cases htx : l.link_options &&& LINK_OPTION_TX ≠ 0
    · rw [if_pos htx]
      refine Or.inr ⟨rfl, Or.inl ⟨?_, htx⟩⟩
      unfold link_has_tx
      omega
    · rw [if_neg htx]
      refine Or.inl ⟨rfl, Or.inl ⟨?_, ?_⟩⟩
      · unfold link_has_tx
        omega
      · unfold link_has_tx
        omega

/-- Strict scheduling priority is transitive. -/
theorem link_prio_lt_trans {a b c : TschLink} (h1 : link_prio_lt a b)
    (h2 : link_prio_lt b c) : link_prio_lt a c := by
  rcases h1 with ⟨h1a, h1b⟩ | ⟨h1a, h1b⟩ <;>
    rcases h2 with ⟨h2a, h2b⟩ | ⟨h2a, h2b⟩
  · exact absurd h1b h2a
  · exact Or.inl ⟨h1a, h2a.mp h1b⟩
  · exact Or.inl ⟨fun ha => h2a (h1a.mp ha), h2b⟩
  · exact Or.inr ⟨h1a.trans h2a, Nat.lt_trans h2b h1b⟩

/-- A candidate of a cons-schedule is either a matching link of the head
slotframe or a candidate of the tail. -/
theorem is_link_candidate_cons {sf : TschSlotframe} {rest : List TschSlotframe}
    {asn : Nat} {l : TschLink} :
    is_link_candidate (sf :: rest) asn l ↔
      (l ∈ sf.links_list ∧ l.timeslot = asn % sf.size) ∨
        is_link_candidate rest asn l := by
  unfold is_link_candidate
  constructor
  · rintro ⟨sf2, hsf2, hl, ht⟩
    rcases List.mem_cons.mp hsf2 with h | h
    · subst h; exact Or.inl ⟨hl, ht⟩
    · exact Or.inr ⟨sf2, h, hl, ht⟩
  · rintro (⟨hl, ht⟩ | ⟨sf2, hsf2, hl, ht⟩)
    · exact ⟨sf, List.mem_cons_self _ _, hl, ht⟩
    · exact ⟨sf2, List.mem_cons_of_mem _ hsf2, hl, ht⟩

/-- Unfolding step of the slotframe loop: no link of the head slotframe
matches the ASN. -/
theorem get_link_from_asn_loop_cons_none {asn : Nat} {sf : TschSlotframe}
    {rest : List TschSlotframe} {best : Option TschLink}
    (h : tsch_schedule_get_link_from_timeslot false sf (asn % sf.size) = none) :
    tsch_schedule_get_link_from_asn_loop false asn (sf :: rest) best =
      tsch_schedule_get_link_from_asn_loop false asn rest best := by
  simp only [tsch_schedule_get_link_from_asn_loop, h]

/-- Unfolding step of the slotframe loop: the head slotframe matches and
the accumulator is empty. -/
theorem get_link_from_asn_loop_cons_first {asn : Nat} {sf : TschSlotframe}
    {rest : List TschSlotframe} {l : TschLink}
    (h : tsch_schedule_get_link_from_timeslot false sf (asn % sf.size) = some l) :
    tsch_schedule_get_link_from_asn_loop false asn (sf :: rest) none =
      tsch_schedule_get_link_from_asn_loop false asn rest (some l) := by
  simp only [tsch_schedule_get_link_from_asn_loop, h]

/-- Unfolding step of the slotframe loop: the head slotframe matches and
the accumulator is occupied, so the tie-break decides. -/
theorem get_link_from_asn_loop_cons_best {asn : Nat} {sf : TschSlotframe}
    {rest : List TschSlotframe} {l cb : TschLink}
    (h : tsch_schedule_get_link_from_timeslot false sf (asn % sf.size) = some l) :
    tsch_schedule_get_link_from_asn_loop false asn (sf :: rest) (some cb) =
      tsch_schedule_get_link_from_asn_loop false asn rest
        (some (select_best_link cb l)) := by
  simp only [tsch_schedule_get_link_from_asn_loop, h]

/-- Invariant of the slotframe loop of `tsch_schedule_get_link_from_asn`:
on an installed schedule (one link per timeslot, link handles matching
their slotframe, distinct slotframe handles, accumulator from earlier
slotframes), the loop returns the accumulator or a candidate, beating
both the accumulator and every candidate; and it returns `NULL` only from
a `NULL` accumulator with no candidates. -/
theorem get_link_from_asn_loop_spec (asn : Nat) :
    ∀ (sfs : List TschSlotframe) (best : Option TschLink),
      (∀ sf ∈ sfs, ∀ l1 ∈ sf.links_list, ∀ l2 ∈ sf.links_list,
        l1.timeslot = l2.timeslot → l1 = l2) →
      (∀ sf ∈ sfs, ∀ l ∈ sf.links_list, l.slotframe_handle = sf.handle) →
      List.Pairwise (fun a b => a.handle ≠ b.handle) sfs →
      (∀ b, best = some b → ∀ sf ∈ sfs, ∀ l ∈ sf.links_list,
        b.slotframe_handle ≠ l.slotframe_handle) →
      ((∀ r, tsch_schedule_get_link_from_asn_loop false asn sfs best = some r →
          (best = some r ∨ is_link_candidate sfs asn r) ∧
          (∀ b, best = some b → b = r ∨ link_prio_lt b r) ∧
          (∀ l, is_link_candidate sfs asn l → l = r ∨ link_prio_lt l r)) ∧
        (tsch_schedule_get_link_from_asn_loop false asn sfs best = none →
          best = none ∧ ∀ l, ¬is_link_candidate sfs asn l)) := by
  intro sfs
  induction sfs with
  | nil =>
    intro best _ _ _ _
    constructor
    · intro r hr
      refine ⟨Or.inl hr, fun b hb => ?_, fun l hl => ?_⟩
      · rw [hb] at hr; exact Or.inl (Option.some.inj hr)
      · rcases hl with ⟨sf, hsf, _⟩; simp at hsf
    · intro hr
      refine ⟨hr, fun l hl => ?_⟩
      rcases hl with ⟨sf, hsf, _⟩; simp at hsf
  | cons sf rest ih =>
    intro best hone hhandle hdist hbd
    have hone2 : ∀ sf2 ∈ rest, ∀ l1 ∈ sf2.links_list, ∀ l2 ∈ sf2.links_list,
        l1.timeslot = l2.timeslot → l1 = l2 :=
      fun sf2 h2 => hone sf2 (List.mem_cons_of_mem _ h2)
    have hhandle2 : ∀ sf2 ∈ rest, ∀ l ∈ sf2.links_list,
        l.slotframe_handle = sf2.handle :=
      fun sf2 h2 => hhandle sf2 (List.mem_cons_of_mem _ h2)
    have hdist2 : List.Pairwise (fun a b => a.handle ≠ b.handle) rest :=
      (List.pairwise_cons.mp hdist).2
    have hheadne : ∀ sf2 ∈ rest, sf.handle ≠ sf2.handle :=
      (List.pairwise_cons.mp hdist).1
    rcases hlk : tsch_schedule_get_link_from_timeslot false sf (asn % sf.size)
      with _ | l
    · -- no link of `sf` matches the ASN
      have hnone : ∀ l2 ∈ sf.links_list, l2.timeslot ≠ asn % sf.size :=
        get_link_from_timeslot_loop_none _ _ hlk
      have hbd2 : ∀ b, best = some b → ∀ sf2 ∈ rest, ∀ l ∈ sf2.links_list,
          b.slotframe_handle ≠ l.slotframe_handle :=
        fun b hb sf2 h2 => hbd b hb sf2 (List.mem_cons_of_mem _ h2)
      rw [get_link_from_asn_loop_cons_none hlk]
      rcases ih best hone2 hhandle2 hdist2 hbd2 with ⟨ihs, ihn⟩
      constructor
      · intro r hr
        rcases ihs r hr with ⟨i1, i2, i3⟩
        refine ⟨?_, i2, ?_⟩
        · rcases i1 with i1 | i1
          · exact Or.inl i1
          · exact Or.inr (is_link_candidate_cons.mpr (Or.inr i1))
        · intro l2 hl2
          rcases is_link_candidate_cons.mp hl2 with ⟨hm, ht⟩ | hl2
          · exact absurd ht (hnone l2 hm)
          · exact i3 l2 hl2
      · intro hr
        rcases ihn hr with ⟨i1, i2⟩
        refine ⟨i1, fun l2 hl2 => ?_⟩
        rcases is_link_candidate_cons.mp hl2 with ⟨hm, ht⟩ | hl2
        · exact absurd ht (hnone l2 hm)
        · exact i2 l2 hl2
    · -- `sf` contributes candidate `l`
      rcases get_link_from_timeslot_loop_some _ _ _ hlk with ⟨hlmem, hlts⟩
      have hlsfh : l.slotframe_handle = sf.handle :=
        hhandle sf (List.mem_cons_self _ _) l hlmem
      have hlbd : ∀ sf2 ∈ rest, ∀ l2 ∈ sf2.links_list,
          l.slotframe_handle ≠ l2.slotframe_handle := by
        intro sf2 h2 l2 hl2
        rw [hlsfh, hhandle2 sf2 h2 l2 hl2]
        exact hheadne sf2 h2
      have hself : ∀ l2, l2 ∈ sf.links_list → l2.timeslot = asn % sf.size →
          l2 = l := by
        intro l2 hm ht
        exact hone sf (List.mem_cons_self _ _) l2 hm l hlmem (by rw [ht, hlts])
      rcases best with _ | cb
      · -- accumulator empty: fold `l` in
        rw [get_link_from_asn_loop_cons_first hlk]
        rcases ih (some l) hone2 hhandle2 hdist2
            (fun b hb => by cases Option.some.inj hb; exact hlbd) with ⟨ihs, ihn⟩
        constructor
        · intro r hr
          rcases ihs r hr with ⟨i1, i2, i3⟩
          refine ⟨?_, ?_, ?_⟩
          · rcases i1 with i1 | i1
            · have hlr : l = r := Option.some.inj i1
              exact Or.inr (is_link_candidate_cons.mpr
                (Or.inl ⟨hlr ▸ hlmem, hlr ▸ hlts⟩))
            · exact Or.inr (is_link_candidate_cons.mpr (Or.inr i1))
          · intro b hb; exact Option.noConfusion hb
          · intro l2 hl2
            rcases is_link_candidate_cons.mp hl2 with ⟨hm, ht⟩ | hl2
            · rw [hself l2 hm ht]
              exact i2 l rfl
            · exact i3 l2 hl2
        · intro hr
          rcases ihn hr with ⟨i1, _⟩
          exact Option.noConfusion i1
      · -- accumulator occupied: tie-break
        have hne : cb.slotframe_handle ≠ l.slotframe_handle :=
          hbd cb rfl sf (List.mem_cons_self _ _) l hlmem
        have hcbd : ∀ sf2 ∈ rest, ∀ l2 ∈ sf2.links_list,
            cb.slotframe_handle ≠ l2.slotframe_handle :=
          fun sf2 h2 => hbd cb rfl sf2 (List.mem_cons_of_mem _ h2)
        rw [get_link_from_asn_loop_cons_best hlk]
        rcases select_best_link_spec cb l hne with ⟨hw, hlt⟩ | ⟨hw, hlt⟩
        · -- the current best survives
          rw [hw]
          rcases ih (some cb) hone2 hhandle2 hdist2
              (fun b hb => by cases Option.some.inj hb; exact hcbd) with ⟨ihs, ihn⟩
          constructor
          · intro r hr
            rcases ihs r hr with ⟨i1, i2, i3⟩
            have hcbr : cb = r ∨ link_prio_lt cb r := i2 cb rfl
            refine ⟨?_, ?_, ?_⟩
            · rcases i1 with i1 | i1
              · exact Or.inl i1
              · exact Or.inr (is_link_candidate_cons.mpr (Or.inr i1))
            · intro b hb
              cases Option.some.inj hb
              exact hcbr
            · intro l2 hl2
              rcases is_link_candidate_cons.mp hl2 with ⟨hm, ht⟩ | hl2
              · rw [hself l2 hm ht]
                rcases hcbr with hcbr | hcbr
                · exact Or.inr (hcbr ▸ hlt)
                · exact Or.inr (link_prio_lt_trans hlt hcbr)
              · exact i3 l2 hl2
          · intro hr
            rcases ihn hr with ⟨i1, _⟩
            exact Option.noConfusion i1
        · -- the new candidate wins
          rw [hw]
          rcases ih (some l) hone2 hhandle2 hdist2
              (fun b hb => by cases Option.some.inj hb; exact hlbd) with ⟨ihs, ihn⟩
          constructor
          · intro r hr
            rcases ihs r hr with ⟨i1, i2, i3⟩
            have hlr : l = r ∨ link_prio_lt l r := i2 l rfl
            refine ⟨?_, ?_, ?_⟩
            · rcases i1 with i1 | i1
              · have hlr2 : l = r := Option.some.inj i1
                exact Or.inr (is_link_candidate_cons.mpr
                  (Or.inl ⟨hlr2 ▸ hlmem, hlr2 ▸ hlts⟩))
              · exact Or.inr (is_link_candidate_cons.mpr (Or.inr i1))
            · intro b hb
              cases Option.some.inj hb
              rcases hlr with hlr | hlr
              · exact Or.inr (hlr ▸ hlt)
              · exact Or.inr (link_prio_lt_trans hlt hlr)
            · intro l2 hl2
              rcases is_link_candidate_cons.mp hl2 with ⟨hm, ht⟩ | hl2
              · rw [hself l2 hm ht]
                exact hlr
              · exact i3 l2 hl2
          · intro hr
            rcases ihn hr with ⟨i1, _⟩
            exact Option.noConfusion i1

/-- Claim C1: for every ASN and every installed schedule in which the
global lock is free and each slotframe holds at most one link per
timeslot (with link handles matching their slotframe and distinct
slotframe handles, as `tsch_schedule_add_slotframe` and
`tsch_schedule_add_link` maintain), `tsch_schedule_get_link_from_asn`
selects at most one link, and among all links whose timeslot equals
`asn mod size` of their slotframe it returns the highest-priority one:
a link with the TX option beats a link without TX, and among links with
equal TX status the link with the smaller `slotframe_handle` wins. -/
theorem get_link_from_asn_priority (sfs : List TschSlotframe) (asn : Nat)
    (hone : ∀ sf ∈ sfs, ∀ l1 ∈ sf.links_list, ∀ l2 ∈ sf.links_list,
      l1.timeslot = l2.timeslot → l1 = l2)
    (hhandle : ∀ sf ∈ sfs, ∀ l ∈ sf.links_list, l.slotframe_handle = sf.handle)
    (hdist : List.Pairwise (fun a b => a.handle ≠ b.handle) sfs) :
    (∀ r, tsch_schedule_get_link_from_asn false sfs asn = some r →
      is_link_candidate sfs asn r ∧
      ∀ l, is_link_candidate sfs asn l → l = r ∨ link_prio_lt l r) ∧
    ((∃ l, is_link_candidate sfs asn l) →
      (tsch_schedule_get_link_from_asn false sfs asn).isSome) := by
  rcases get_link_from_asn_loop_spec asn sfs none hone hhandle hdist
      (fun b hb => Option.noConfusion hb) with ⟨hs, hn⟩
  constructor
  · intro r hr
    rcases hs r hr with ⟨i1, _, i3⟩
    rcases i1 with i1 | i1
    · exact Option.noConfusion i1
    · exact ⟨i1, i3⟩
  · intro ⟨l, hl⟩
    rcases hres : tsch_schedule_get_link_from_asn false sfs asn with _ | r
    · exact absurd hl ((hn hres).2 l)
    · rfl

/-- Witness for `get_link_from_asn_priority` on the two-slotframe sample
schedule at ASN 0: both matching links carry TX, and the one in the
slotframe with the smaller handle (20) is selected. -/
theorem get_link_from_asn_priority_witness :
    is_link_candidate [sampleSf1, sampleSf2] 0 sampleLinkA ∧
    ∀ l, is_link_candidate [sampleSf1, sampleSf2] 0 l →
      l = sampleLinkA ∨ link_prio_lt l sampleLinkA :=
  (get_link_from_asn_priority [sampleSf1, sampleSf2] 0 (by decide) (by decide)
    (by decide)).1 sampleLinkA (by decide)

/-- A found neighbor is a listed entry with the looked-up address. -/
theorem tsch_queue_get_nbr_loop_some (addr : LinkAddr) :
    ∀ (nbrs : List TschNeighbor) (n : TschNeighbor),
      tsch_queue_get_nbr_loop addr nbrs = some n → n ∈ nbrs ∧ n.addr = addr := by
  intro nbrs
  induction nbrs with
  | nil => intro n h; exact absurd h (by simp [tsch_queue_get_nbr_loop])
  | cons m rest ih =>
    intro n h
    rw [tsch_queue_get_nbr_loop] at h
    by_cases hm : m.addr = addr
    · rw [if_pos hm] at h
      cases Option.some.inj h
      exact ⟨List.mem_cons_self _ _, hm⟩
    · rw [if_neg hm] at h
      rcases ih n h with ⟨h1, h2⟩
      exact ⟨List.mem_cons_of_mem _ h1, h2⟩

/-- The neighbor scan continues into an appended suffix when the prefix
has no match. -/
theorem tsch_queue_get_nbr_loop_append_none (addr : LinkAddr)
    (l2 : List TschNeighbor) :
    ∀ nbrs : List TschNeighbor,
      tsch_queue_get_nbr_loop addr nbrs = none →
      tsch_queue_get_nbr_loop addr (nbrs ++ l2) =
        tsch_queue_get_nbr_loop addr l2 := by
  intro nbrs
  induction nbrs with
  | nil => intro _; simp
  | cons m rest ih =>
    intro h
    rw [tsch_queue_get_nbr_loop] at h
    by_cases hm : m.addr = addr
    · rw [if_pos hm] at h; exact Option.noConfusion h
    · rw [if_neg hm] at h
      rw [List.cons_append, tsch_queue_get_nbr_loop, if_neg hm]
      exact ih h

/-- `tsch_queue_add_nbr` on an existing neighbor returns it and leaves
the list unchanged. -/
theorem tsch_queue_add_nbr_of_get (MAC_MIN_BE nbrCap : Nat)
    (nbrs : List TschNeighbor) (addr : LinkAddr) (n : TschNeighbor)
    (hn : tsch_queue_get_nbr_loop addr nbrs = some n) :
    tsch_queue_add_nbr false MAC_MIN_BE nbrCap nbrs addr = (some n, nbrs) := by
  have hget : tsch_queue_get_nbr false nbrs addr = some n := hn
  simp only [tsch_queue_add_nbr, hget]

/-- A successful `tsch_queue_add_nbr` leaves the returned neighbor
findable in the returned list under the requested address. -/
theorem tsch_queue_add_nbr_get (MAC_MIN_BE nbrCap : Nat)
    (nbrs nbrs1 : List TschNeighbor) (addr : LinkAddr) (n : TschNeighbor)
    (h : tsch_queue_add_nbr false MAC_MIN_BE nbrCap nbrs addr = (some n, nbrs1)) :
    tsch_queue_get_nbr_loop addr nbrs1 = some n ∧ n.addr = addr := by
  rcases hget : tsch_queue_get_nbr_loop addr nbrs with _ | m
  · have hget2 : tsch_queue_get_nbr false nbrs addr = (none : Option TschNeighbor) :=
      hget
    simp only [tsch_queue_add_nbr, hget2, Bool.false_eq_true, if_false] at h
    by_cases hlen : nbrs.length < nbrCap
    · rw [if_pos hlen] at h
      have h1 : (some (tsch_new_neighbor MAC_MIN_BE addr) : Option TschNeighbor)
          = some n := congrArg Prod.fst h
      have h2 : nbrs ++ [tsch_new_neighbor MAC_MIN_BE addr] = nbrs1 :=
        congrArg Prod.snd h
      cases Option.some.inj h1
      constructor
      · rw [← h2, tsch_queue_get_nbr_loop_append_none addr _ nbrs hget]
        simp [tsch_queue_get_nbr_loop, tsch_new_neighbor]
      · rfl
    · rw [if_neg hlen] at h
      exact absurd (congrArg Prod.fst h) (by simp)
  · have hget2 : tsch_queue_get_nbr false nbrs addr = some m := hget
    simp only [tsch_queue_add_nbr, hget2] at h
    have h1 : m = n := Option.some.inj (congrArg Prod.fst h)
    have h2 : nbrs = nbrs1 := congrArg Prod.snd h
    subst h1; subst h2
    exact ⟨hget, (tsch_queue_get_nbr_loop_some addr nbrs m hget).2⟩

/-- Scanning after an in-place update of the scanned address yields the
updated entry, for address-preserving updates. -/
theorem tsch_nbr_list_update_get (addr : LinkAddr) (f : TschNeighbor → TschNeighbor)
    (hf : ∀ m, (f m).addr = m.addr) :
    ∀ nbrs : List TschNeighbor,
      tsch_queue_get_nbr_loop addr (tsch_nbr_list_update addr f nbrs) =
        (tsch_queue_get_nbr_loop addr nbrs).map f := by
  intro nbrs
  induction nbrs with
  | nil => rfl
  | cons m rest ih =>
    rw [tsch_nbr_list_update, tsch_queue_get_nbr_loop]
    by_cases hm : m.addr = addr
    · rw [if_pos hm, tsch_queue_get_nbr_loop, if_pos ((hf m).trans hm), if_pos hm]
      rfl
    · rw [if_neg hm, tsch_queue_get_nbr_loop, if_neg hm, if_neg hm]
      exact ih

/-- An in-place update at a different address preserves membership. -/
theorem tsch_nbr_list_update_mem_of_ne (addr : LinkAddr)
    (f : TschNeighbor → TschNeighbor) (x : TschNeighbor) :
    ∀ nbrs : List TschNeighbor, x ∈ nbrs → x.addr ≠ addr →
      x ∈ tsch_nbr_list_update addr f nbrs := by
  intro nbrs
  induction nbrs with
  | nil => intro hx _; simp at hx
  | cons m rest ih =>
    intro hx hne
    rw [tsch_nbr_list_update]
    by_cases hm : m.addr = addr
    · rw [if_pos hm]
      rcases List.mem_cons.mp hx with hx | hx
      · subst hx; exact absurd hm hne
      · exact List.mem_cons_of_mem _ hx
    · rw [if_neg hm]
      rcases List.mem_cons.mp hx with hx | hx
      · subst hx; exact List.mem_cons_self _ _
      · exact List.mem_cons_of_mem _ (ih hx hne)

/-- The update of the first entry found under `addr` is a member of the
updated list. -/
theorem tsch_nbr_list_update_mem_found (addr : LinkAddr)
    (f : TschNeighbor → TschNeighbor) :
    ∀ (nbrs : List TschNeighbor) (n : TschNeighbor),
      tsch_queue_get_nbr_loop addr nbrs = some n →
      f n ∈ tsch_nbr_list_update addr f nbrs := by
  intro nbrs
  induction nbrs with
  | nil => intro n h; exact absurd h (by simp [tsch_queue_get_nbr_loop])
  | cons m rest ih =>
    intro n h
    rw [tsch_queue_get_nbr_loop] at h
    rw [tsch_nbr_list_update]
    by_cases hm : m.addr = addr
    · rw [if_pos hm] at h
      cases Option.some.inj h
      rw [if_pos hm]
      exact List.mem_cons_self _ _
    · rw [if_neg hm] at h
      rw [if_neg hm]
      exact List.mem_cons_of_mem _ (ih n h)

/-- A found time source is a listed entry flagged as time source. -/
theorem tsch_queue_get_time_source_loop_some :
    ∀ (nbrs : List TschNeighbor) (od : TschNeighbor),
      tsch_queue_get_time_source_loop nbrs = some od →
      od ∈ nbrs ∧ od.is_time_source = true := by
  intro nbrs
  induction nbrs with
  | nil => intro od h; exact absurd h (by simp [tsch_queue_get_time_source_loop])
  | cons m rest ih =>
    intro od h
    rw [tsch_queue_get_time_source_loop] at h
    by_cases hm : m.is_time_source = true
    · rw [if_pos hm] at h
      cases Option.some.inj h
      exact ⟨List.mem_cons_self _ _, hm⟩
    · rw [if_neg hm] at h
      rcases ih od h with ⟨h1, h2⟩
      exact ⟨List.mem_cons_of_mem _ h1, h2⟩

/-- `tsch_queue_add_packet` with a free ring slot and non-exhausted pools
succeeds, appending the packet to the addressed neighbor's FIFO and
consuming one entry of each pool. -/
theorem tsch_queue_add_packet_succeeds (MAC_MIN_BE nbrCap queueCap : Nat)
    (st : TschQueueState) (addr : LinkAddr) (payload seqno : Nat)
    (n : TschNeighbor)
    (hn : tsch_queue_get_nbr_loop addr st.neighbors = some n)
    (hlen : n.tx_queue.length < queueCap)
    (hp : 0 < st.packet_memb_free) (hq : 0 < st.queuebuf_free) :
    tsch_queue_add_packet false MAC_MIN_BE nbrCap queueCap st addr payload seqno =
      (true,
       { neighbors :=
           tsch_nbr_list_update n.addr
             (fun m =>
               { m with
                 tx_queue :=
                   m.tx_queue ++
                     [{ payload := payload, seqno := seqno,
                        ret := MacTxStatus.deferred, transmissions := 0 }] })
             st.neighbors
         packet_memb_free := st.packet_memb_free - 1
         queuebuf_free := st.queuebuf_free - 1 }) := by
  have hadd := tsch_queue_add_nbr_of_get MAC_MIN_BE nbrCap st.neighbors addr n hn
  simp only [tsch_queue_add_packet, Bool.false_eq_true, if_false, hadd,
    if_pos hlen, if_pos hp, if_pos hq]

/-- `tsch_queue_add_packet` on a full ring fails and leaves the state
unchanged. -/
theorem tsch_queue_add_packet_full (MAC_MIN_BE nbrCap queueCap : Nat)
    (st : TschQueueState) (addr : LinkAddr) (payload seqno : Nat)
    (n : TschNeighbor)
    (hn : tsch_queue_get_nbr_loop addr st.neighbors = some n)
    (hlen : ¬n.tx_queue.length < queueCap) :
    tsch_queue_add_packet false MAC_MIN_BE nbrCap queueCap st addr payload seqno =
      (false, st) := by
  have hadd := tsch_queue_add_nbr_of_get MAC_MIN_BE nbrCap st.neighbors addr n hn
  simp only [tsch_queue_add_packet, Bool.false_eq_true, if_false, hadd,
    if_neg hlen]

/-- Iterating `tsch_queue_add_packet` while within capacity and pool
bounds succeeds `k` times, growing the addressed queue by `k`. -/
theorem tsch_queue_add_packet_iter_spec (MAC_MIN_BE nbrCap queueCap : Nat)
    (addr : LinkAddr) (payload seqno : Nat) :
    ∀ (k : Nat) (st : TschQueueState) (n : TschNeighbor),
      tsch_queue_get_nbr_loop addr st.neighbors = some n →
      n.tx_queue.length + k ≤ queueCap →
      k ≤ st.packet_memb_free → k ≤ st.queuebuf_free →
      ∃ (st2 : TschQueueState) (n2 : TschNeighbor),
        tsch_queue_add_packet_iter MAC_MIN_BE nbrCap queueCap addr payload
            seqno k st = (true, st2) ∧
        tsch_queue_get_nbr_loop addr st2.neighbors = some n2 ∧
        n2.tx_queue.length = n.tx_queue.length + k ∧
        st2.packet_memb_free = st.packet_memb_free - k ∧
        st2.queuebuf_free = st.queuebuf_free - k := by
  intro k
  induction k with
  | zero =>
    intro st n hn _ _ _
    exact ⟨st, n, rfl, hn, by omega, by omega, by omega⟩
  | succ k ih =>
    intro st n hn hlen hp hq
    rcases ih st n hn (by omega) (by omega) (by omega) with
      ⟨st1, n1, heq1, hn1, hl1, hp1, hq1⟩
    have hn1addr : n1.addr = addr :=
      (tsch_queue_get_nbr_loop_some addr st1.neighbors n1 hn1).2
    have hlt : n1.tx_queue.length < queueCap := by omega
    have hp2 : 0 < st1.packet_memb_free := by omega
    have hq2 : 0 < st1.queuebuf_free := by omega
    have hstep := tsch_queue_add_packet_succeeds MAC_MIN_BE nbrCap queueCap
      st1 addr payload seqno n1 hn1 hlt hp2 hq2
    simp only [tsch_queue_add_packet_iter, heq1, hstep]
    refine ⟨_, { n1 with tx_queue := n1.tx_queue ++
      [{ payload := payload, seqno := seqno,
         ret := MacTxStatus.deferred, transmissions := 0 }] }, rfl, ?_, ?_, ?_, ?_⟩
    · show tsch_queue_get_nbr_loop addr
        (tsch_nbr_list_update n1.addr
          (fun m =>
            { m with
              tx_queue :=
                m.tx_queue ++
                  [{ payload := payload, seqno := seqno,
                     ret := MacTxStatus.deferred, transmissions := 0 }] })
          st1.neighbors) = _
      rw [hn1addr,
        tsch_nbr_list_update_get addr
          (fun m =>
            { m with
              tx_queue :=
                m.tx_queue ++
                  [{ payload := payload, seqno := seqno,
                     ret := MacTxStatus.deferred, transmissions := 0 }] })
          (fun m => rfl) st1.neighbors,
        hn1]
      simp [hn1addr]
    · simp only [List.length_append, List.length_cons, List.length_nil]
      omega
    · show st1.packet_memb_free - 1 = st.packet_memb_free - (k + 1)
      omega
    · show st1.queuebuf_free - 1 = st.queuebuf_free - (k + 1)
      omega

/-- Claim C8: starting from an empty per-neighbor queue of configured
depth `queueCap`, with the global lock free and the packet and buffer
pools not exhausted, `queueCap` consecutive `tsch_queue_add_packet` calls
for the same address all succeed, the next call fails, and `send_packet`
issued at that point reports `MAC_TX_ERR` with `transmissions = 1` to the
completion callback. -/
theorem queue_capacity_boundary (MAC_MIN_BE nbrCap queueCap : Nat)
    (st : TschQueueState) (addr recv_addr : LinkAddr) (n : TschNeighbor)
    (payload seqno : Nat)
    (hn : tsch_queue_get_nbr false st.neighbors addr = some n)
    (hempty : n.tx_queue = [])
    (hp : queueCap < st.packet_memb_free) (hq : queueCap < st.queuebuf_free)
    (haddr : (if recv_addr = linkaddr_null then tsch_broadcast_address
        else recv_addr) = addr) :
    (tsch_queue_add_packet_iter MAC_MIN_BE nbrCap queueCap addr payload seqno
        queueCap st).1 = true ∧
    (tsch_queue_add_packet false MAC_MIN_BE nbrCap queueCap
        (tsch_queue_add_packet_iter MAC_MIN_BE nbrCap queueCap addr payload
          seqno queueCap st).2 addr payload seqno).1 = false ∧
    (send_packet false MAC_MIN_BE nbrCap queueCap
        (tsch_queue_add_packet_iter MAC_MIN_BE nbrCap queueCap addr payload
          seqno queueCap st).2 seqno recv_addr payload true).1
      = some (MacTxStatus.err, 1) := by
  have hn2 : tsch_queue_get_nbr_loop addr st.neighbors = some n := hn
  rcases tsch_queue_add_packet_iter_spec MAC_MIN_BE nbrCap queueCap addr
      payload seqno queueCap st n hn2 (by rw [hempty]; simp) (by omega)
      (by omega) with ⟨st2, n2, heq, hn2b, hl2, _, _⟩
  have hfull : ¬n2.tx_queue.length < queueCap := by
    rw [hl2, hempty]; simp
  have hfail := tsch_queue_add_packet_full MAC_MIN_BE nbrCap queueCap st2 addr
    payload (tsch_next_packet_seqno seqno) n2 hn2b hfull
  have hfail2 := tsch_queue_add_packet_full MAC_MIN_BE nbrCap queueCap st2 addr
    payload seqno n2 hn2b hfull
  refine ⟨by rw [heq], by rw [heq, hfail2], ?_⟩
  rw [heq]
  have hcnt : tsch_queue_packet_count false MAC_MIN_BE nbrCap st2.neighbors addr
      = ((n2.tx_queue.length : Int), st2.neighbors) := by
    have hadd := tsch_queue_add_nbr_of_get MAC_MIN_BE nbrCap st2.neighbors addr
      n2 hn2b
    simp only [tsch_queue_packet_count, Bool.false_eq_true, if_false, hadd]
  show (send_packet false MAC_MIN_BE nbrCap queueCap st2 seqno recv_addr
      payload true).1 = some (MacTxStatus.err, 1)
  rw [send_packet]
  rw [haddr, hcnt]
  simp only [not_true, Bool.true_eq_false, if_false]
  have hst2 : ({ st2 with neighbors := st2.neighbors } : TschQueueState) = st2 :=
    rfl
  rw [hst2, hfail]

/-- Witness for `queue_capacity_boundary` at depth 2 on the sample state:
two adds succeed, the third is rejected and `send_packet` reports the
error callback. -/
theorem queue_capacity_boundary_witness :
    (send_packet false 1 8 2
        (tsch_queue_add_packet_iter 1 8 2 sampleAddr 7 1 2 sampleQueueState).2
        1 sampleAddr 7 true).1 = some (MacTxStatus.err, 1) :=
  (queue_capacity_boundary 1 8 2 sampleQueueState sampleAddr sampleAddr
    sampleNbr 7 1 (by decide) (by decide) (by decide) (by decide)
    (by decide)).2.2

/-- After `tsch_queue_update_time_source` towards an address present in
the list, some listed neighbor with that address is flagged as time
source. -/
theorem tsch_queue_update_time_source_marks (MAC_MIN_BE nbrCap : Nat)
    (nbrs : List TschNeighbor) (a : LinkAddr) (n : TschNeighbor)
    (hn : tsch_queue_get_nbr_loop a nbrs = some n) :
    ∃ m ∈ (tsch_queue_update_time_source false false MAC_MIN_BE nbrCap nbrs
        (some a)).2,
      m.addr = a ∧ m.is_time_source = true := by
  have hadd := tsch_queue_add_nbr_of_get MAC_MIN_BE nbrCap nbrs a n hn
  have hna : n.addr = a := (tsch_queue_get_nbr_loop_some a nbrs n hn).2
  have hmemn : tsch_queue_get_nbr_loop n.addr nbrs = some n := by
    rw [hna]; exact hn
  rcases hts : tsch_queue_get_time_source_loop nbrs with _ | od
  · have hts2 : tsch_queue_get_time_source false nbrs =
        (none : Option TschNeighbor) := hts
    simp only [tsch_queue_update_time_source, Bool.false_eq_true, if_false,
      hts2, hadd]
    rw [if_neg (by simp)]
    refine ⟨{ n with is_time_source := true }, ?_, hna, rfl⟩
    exact tsch_nbr_list_update_mem_found n.addr _ nbrs n hmemn
  · have hts2 : tsch_queue_get_time_source false nbrs = some od := hts
    rcases tsch_queue_get_time_source_loop_some nbrs od hts with ⟨hodmem, hodts⟩
    simp only [tsch_queue_update_time_source, Bool.false_eq_true, if_false,
      hts2, hadd]
    by_cases hc : Option.map TschNeighbor.addr (some n) =
        Option.map TschNeighbor.addr (some od)
    · rw [if_pos hc]
      have hcc : n.addr = od.addr := by simpa using hc
      exact ⟨od, hodmem, by rw [← hcc, hna], hodts⟩
    · rw [if_neg hc]
      have hcc : n.addr ≠ od.addr := by simpa using hc
      refine ⟨{ n with is_time_source := true }, ?_, hna, rfl⟩
      apply tsch_nbr_list_update_mem_of_ne od.addr _ _ _
        (tsch_nbr_list_update_mem_found n.addr _ nbrs n hmemn)
      simpa using hcc

/-- Claim C3: whenever a scanning non-coordinator node reads a valid
enhanced beacon whose advertised join priority is below the join-priority
maximum and the neighbor allocation succeeds, `tsch_associate` adds the
EB's sender as a neighbor and marks it as time source, adopts the EB's
ASN as `current_asn`, sets `last_sync_asn` to it, sets
`current_link_start` to the packet RX timestamp minus `TsTxOffset`, sets
the node's join priority to the received priority plus one, fires the
joining-network hook, and sets `associated` to 1. -/
theorem associate_on_eb_spec (MAC_MIN_BE nbrCap maxJp : Nat)
    (TsTxOffset rx_timestamp : Int) (st : TschState) (src : LinkAddr)
    (eb_asn eb_jp : Nat)
    (hjp : eb_jp < maxJp)
    (halloc : (tsch_queue_add_nbr false MAC_MIN_BE nbrCap st.neighbors
        src).1.isSome) :
    ∃ st2, tsch_associate_on_eb MAC_MIN_BE nbrCap maxJp TsTxOffset st src
        eb_asn eb_jp rx_timestamp = st2 ∧
      (∃ m ∈ st2.neighbors, m.addr = src ∧ m.is_time_source = true) ∧
      st2.current_asn = eb_asn ∧
      st2.last_sync_asn = eb_asn ∧
      st2.current_link_start = rx_timestamp - TsTxOffset ∧
      st2.tsch_join_priority = eb_jp + 1 ∧
      st2.associated = true ∧
      st2.joining_network_fired = true := by
  rcases hadd : tsch_queue_add_nbr false MAC_MIN_BE nbrCap st.neighbors src
    with ⟨nopt, nbrs1⟩
  rcases nopt with _ | n
  · rw [hadd] at halloc; simp at halloc
  have hget1 := tsch_queue_add_nbr_get MAC_MIN_BE nbrCap st.neighbors nbrs1
    src n hadd
  have hadd2 : tsch_queue_add_nbr false MAC_MIN_BE nbrCap
      ({ st with current_asn := eb_asn, tsch_join_priority := eb_jp } :
        TschState).neighbors src = (some n, nbrs1) := hadd
  rcases huts : tsch_queue_update_time_source false false MAC_MIN_BE nbrCap
      nbrs1 (some src) with ⟨chg, nbrs2⟩
  have hres : tsch_associate_on_eb MAC_MIN_BE nbrCap maxJp TsTxOffset st src
      eb_asn eb_jp rx_timestamp =
      { neighbors := nbrs2
        current_asn := eb_asn
        last_sync_asn := eb_asn
        current_link_start := rx_timestamp - TsTxOffset
        tsch_join_priority := eb_jp + 1
        associated := true
        joining_network_fired := true } := by
    simp only [tsch_associate_on_eb, if_pos hjp, hadd2, huts]
  have hmarks := tsch_queue_update_time_source_marks MAC_MIN_BE nbrCap nbrs1
    src n hget1.1
  rw [huts] at hmarks
  exact ⟨_, hres, hmarks, rfl, rfl, rfl, rfl, rfl, rfl⟩

/-- Witness for `associate_on_eb_spec`: scanning with an empty neighbor
table, a beacon from the sample address with ASN `0x1234` and join
priority 3 associates with join priority 4. -/
theorem associate_on_eb_spec_witness :
    ∃ st2, tsch_associate_on_eb 1 8 6 2120 sampleScanState sampleAddr
        4660 3 100000 = st2 ∧
      (∃ m ∈ st2.neighbors, m.addr = sampleAddr ∧ m.is_time_source = true) ∧
      st2.current_asn = 4660 ∧
      st2.last_sync_asn = 4660 ∧
      st2.current_link_start = 100000 - 2120 ∧
      st2.tsch_join_priority = 3 + 1 ∧
      st2.associated = true ∧
      st2.joining_network_fired = true :=
  associate_on_eb_spec 1 8 6 2120 100000 sampleScanState sampleAddr 4660 3
    (by decide) (by decide)

end Tsch
